import Mathlib

/-!
# Verification of the accountability-ledger core

A shallow embedding, in Lean 4, of the trust-bearing core of the
`accountabiltyme` claim-accountability ledger: canonical serialization and
hashing (`app/core/hasher.py`), the ledger service's claim state machine and
chain verification (`app/core/ledger.py`), the event stores
(`app/db/store.py`), the Merkle anchoring service (`app/core/anchor.py`),
the Ed25519 signer wrapper (`app/core/signer.py`) and the standalone bundle
verifier (`tools/verify.py`).  SHA-256 is implemented executably over byte
lists so that concrete hashes can be evaluated inside the kernel; the
Ed25519 primitive itself is kept abstract (a parameter), since only the
wrapper logic around it belongs to this repository.
-/

set_option maxRecDepth 100000

namespace Spec2Proof

instance {ε α : Type} [DecidableEq ε] [DecidableEq α] : DecidableEq (Except ε α) :=
  fun x y =>
    match x, y with
    | .ok a, .ok b =>
      if h : a = b then isTrue (by rw [h]) else isFalse (by simp [h])
    | .error a, .error b =>
      if h : a = b then isTrue (by rw [h]) else isFalse (by simp [h])
    | .ok _, .error _ => isFalse (by simp)
    | .error _, .ok _ => isFalse (by simp)

/-! ## SHA-256 over byte lists

A direct implementation of FIPS 180-4 SHA-256.  Words are `Nat` reduced
modulo `2^32`; messages are lists of byte values. -/

def M32 : Nat := 4294967296

def rotr (n w : Nat) : Nat := ((w >>> n) ||| (w <<< (32 - n))) % M32

def bsig0 (w : Nat) : Nat := (rotr 2 w) ^^^ (rotr 13 w) ^^^ (rotr 22 w)

def bsig1 (w : Nat) : Nat := (rotr 6 w) ^^^ (rotr 11 w) ^^^ (rotr 25 w)

def ssig0 (w : Nat) : Nat := (rotr 7 w) ^^^ (rotr 18 w) ^^^ (w >>> 3)

def ssig1 (w : Nat) : Nat := (rotr 17 w) ^^^ (rotr 19 w) ^^^ (w >>> 10)

def chf (x y z : Nat) : Nat := (x &&& y) ^^^ ((x ^^^ 4294967295) &&& z)

def majf (x y z : Nat) : Nat := (x &&& y) ^^^ (x &&& z) ^^^ (y &&& z)

def shaK : List Nat :=
  [1116352408, 1899447441, 3049323471, 3921009573,
   961987163, 1508970993, 2453635748, 2870763221,
   3624381080, 310598401, 607225278, 1426881987,
   1925078388, 2162078206, 2614888103, 3248222580,
   3835390401, 4022224774, 264347078, 604807628,
   770255983, 1249150122, 1555081692, 1996064986,
   2554220882, 2821834349, 2952996808, 3210313671,
   3336571891, 3584528711, 113926993, 338241895,
   666307205, 773529912, 1294757372, 1396182291,
   1695183700, 1986661051, 2177026350, 2456956037,
   2730485921, 2820302411, 3259730800, 3345764771,
   3516065817, 3600352804, 4094571909, 275423344,
   430227734, 506948616, 659060556, 883997877,
   958139571, 1322822218, 1537002063, 1747873779,
   1955562222, 2024104815, 2227730452, 2361852424,
   2428436474, 2756734187, 3204031479, 3329325298]

structure Hash8 where
  a : Nat
  b : Nat
  c : Nat
  d : Nat
  e : Nat
  f : Nat
  g : Nat
  h : Nat
deriving DecidableEq, Repr

def sha256Init : Hash8 :=
  ⟨1779033703, 3144134277, 1013904242, 2773480762,
   1359893119, 2600822924, 528734635, 1541459225⟩

def compressStep : Hash8 → Nat × Nat → Hash8
  | ⟨a, b, c, d, e, f, g, h⟩, (k, w) =>
    let t1 := (h + bsig1 e + chf e f g + k + w) % M32
    let t2 := (bsig0 a + majf a b c) % M32
    ⟨(t1 + t2) % M32, a, b, c, (d + t1) % M32, e, f, g⟩

/-- Message-schedule extension, keeping the schedule reversed (newest first). -/
def extendLoop : Nat → List Nat → List Nat
  | 0, acc => acc
  | n + 1, acc =>
    let w := (ssig1 (acc.getD 1 0) + acc.getD 6 0 + ssig0 (acc.getD 14 0)
              + acc.getD 15 0) % M32
    extendLoop n (w :: acc)

def scheduleW (block : List Nat) : List Nat := (extendLoop 48 block.reverse).reverse

def compress (hs : Hash8) (block : List Nat) : Hash8 :=
  let r := ((shaK.zip (scheduleW block))).foldl compressStep hs
  ⟨(hs.a + r.a) % M32, (hs.b + r.b) % M32, (hs.c + r.c) % M32, (hs.d + r.d) % M32,
   (hs.e + r.e) % M32, (hs.f + r.f) % M32, (hs.g + r.g) % M32, (hs.h + r.h) % M32⟩

def bytesToWords : List Nat → List Nat
  | b0 :: b1 :: b2 :: b3 :: rest =>
    (((b0 * 256 + b1) * 256 + b2) * 256 + b3) :: bytesToWords rest
  | _ => []

def chunksLoop : Nat → List Nat → List (List Nat)
  | 0, _ => []
  | _, [] => []
  | n + 1, bs => bs.take 64 :: chunksLoop n (bs.drop 64)

def chunks64 (bs : List Nat) : List (List Nat) := chunksLoop bs.length bs

def be8 (n : Nat) : List Nat :=
  [(n >>> 56) % 256, (n >>> 48) % 256, (n >>> 40) % 256, (n >>> 32) % 256,
   (n >>> 24) % 256, (n >>> 16) % 256, (n >>> 8) % 256, n % 256]

def padBytes (msg : List Nat) : List Nat :=
  msg ++ [128] ++ List.replicate ((119 - msg.length % 64) % 64) 0
      ++ be8 (msg.length * 8)

def sha256Words (msg : List Nat) : Hash8 :=
  ((chunks64 (padBytes msg)).map bytesToWords).foldl compress sha256Init

def hexChar (n : Nat) : Char :=
  if n < 10 then Char.ofNat (48 + n) else Char.ofNat (87 + n)

def wordHex (w : Nat) : List Char :=
  [hexChar ((w >>> 28) % 16), hexChar ((w >>> 24) % 16), hexChar ((w >>> 20) % 16),
   hexChar ((w >>> 16) % 16), hexChar ((w >>> 12) % 16), hexChar ((w >>> 8) % 16),
   hexChar ((w >>> 4) % 16), hexChar (w % 16)]

def hash8Hex (hs : Hash8) : String :=
  String.mk (wordHex hs.a ++ wordHex hs.b ++ wordHex hs.c ++ wordHex hs.d
             ++ wordHex hs.e ++ wordHex hs.f ++ wordHex hs.g ++ wordHex hs.h)

/-- Lowercase hex SHA-256 digest of a byte list. -/
def sha256Hex (msg : List Nat) : String := hash8Hex (sha256Words msg)

/-- UTF-8 encoding of a single character. -/
def utf8Char (c : Char) : List Nat :=
  let n := c.toNat
  if n < 128 then [n]
  else if n < 2048 then [192 + n / 64, 128 + n % 64]
  else if n < 65536 then [224 + n / 4096, 128 + (n / 64) % 64, 128 + n % 64]
  else [240 + n / 262144, 128 + (n / 4096) % 64, 128 + (n / 64) % 64, 128 + n % 64]

def utf8Bytes (s : String) : List Nat := (s.data.map utf8Char).flatten

/-- SHA-256 of the UTF-8 bytes of a string, as lowercase hex
(`hashlib.sha256(x.encode("utf-8")).hexdigest()`). -/
def sha256String (s : String) : String := sha256Hex (utf8Bytes s)

example : sha256String "abc" =
    "ba7816bf8f01cfea414140de5dae2223b00361a396177a9cb410ff61f20015ad" := by decide

/-! ## Canonical serialization (`app/core/hasher.py`)

`Hasher._serialize_value` dispatches on the Python type of the value; the
closed set of accepted and rejected kinds is embedded as the inductive
`CanonValue`.  A `uuidv` carries the `str(value)` form, a `decimalv` the
`str(Decimal)` digits as authored, an `instantv` the field values of the
UTC instant after `astimezone(timezone.utc)` together with the
timezone-awareness flag checked by `_serialize_datetime`.  Python dicts are
embedded as association lists with distinct keys. -/

inductive CanonValue where
  | null
  | boolv (b : Bool)
  | intv (n : Int)
  | floatv
  | decimalv (s : String)
  | strv (s : String)
  | uuidv (s : String)
  | datev (y m d : Nat)
  | instantv (aware : Bool) (y mo d hh mi ss us : Nat)
  | enumv (s : String)
  | bytesv
  | setv
  | listv (xs : List CanonValue)
  | mapv (kvs : List (String × CanonValue))

/-- JSON values as produced by `_serialize_value` and consumed by
`json.dumps`. -/
inductive JValue where
  | jnull
  | jbool (b : Bool)
  | jint (n : Int)
  | jstr (s : String)
  | jarr (xs : List JValue)
  | jobj (kvs : List (String × JValue))

/-- Python string comparison: lexicographic on Unicode code points. -/
def strLtB : List Char → List Char → Bool
  | [], [] => false
  | [], _ :: _ => true
  | _ :: _, [] => false
  | c :: cs, d :: ds =>
    if c.toNat < d.toNat then true
    else if d.toNat < c.toNat then false
    else strLtB cs ds

def keyLt (a b : String) : Bool := strLtB a.data b.data

def insertKV {α : Type} (p : String × α) : List (String × α) → List (String × α)
  | [] => [p]
  | q :: qs => if keyLt q.1 p.1 then q :: insertKV p qs else p :: q :: qs

/-- `sorted(...)` over key/value pairs, ascending by key. -/
def sortKVs {α : Type} : List (String × α) → List (String × α)
  | [] => []
  | p :: ps => insertKV p (sortKVs ps)

def uEsc (n : Nat) : List Char :=
  ['\\', 'u', hexChar ((n >>> 12) % 16), hexChar ((n >>> 8) % 16),
   hexChar ((n >>> 4) % 16), hexChar (n % 16)]

/-- `json.dumps` string escaping with `ensure_ascii=True`: quote and
backslash escaped, control characters via short escapes or `\u00XX`,
everything outside `0x20..0x7e` as `\uXXXX` (surrogate pairs beyond the
BMP). -/
def escapeChar (c : Char) : List Char :=
  let n := c.toNat
  if c = '"' then ['\\', '"']
  else if c = '\\' then ['\\', '\\']
  else if n = 8 then ['\\', 'b']
  else if n = 9 then ['\\', 't']
  else if n = 10 then ['\\', 'n']
  else if n = 12 then ['\\', 'f']
  else if n = 13 then ['\\', 'r']
  else if n < 32 then uEsc n
  else if n < 127 then [c]
  else if n < 65536 then uEsc n
  else uEsc (55296 + (n - 65536) / 1024) ++ uEsc (56320 + (n - 65536) % 1024)

def renderJStr (s : String) : String :=
  "\"" ++ String.mk ((s.data.map escapeChar).flatten) ++ "\""

mutual

/-- `json.dumps(v, separators=(",", ":"), ensure_ascii=True)`.  Objects are
rendered in the order given; the canonicalizer only ever builds them
key-sorted, matching `sort_keys=True`. -/
def renderJ : JValue → String
  | .jnull => "null"
  | .jbool b => if b then "true" else "false"
  | .jint n => toString n
  | .jstr s => renderJStr s
  | .jarr xs => "[" ++ renderArr xs ++ "]"
  | .jobj kvs => "\x7b" ++ renderObj kvs ++ "\x7d"

def renderArr : List JValue → String
  | [] => ""
  | [x] => renderJ x
  | x :: y :: xs => renderJ x ++ "," ++ renderArr (y :: xs)

def renderObj : List (String × JValue) → String
  | [] => ""
  | [(k, v)] => renderJStr k ++ ":" ++ renderJ v
  | (k, v) :: q :: kvs => renderJStr k ++ ":" ++ renderJ v ++ "," ++ renderObj (q :: kvs)

end

def padNum (w n : Nat) : String :=
  String.mk (List.replicate (w - (Nat.repr n).length) '0') ++ Nat.repr n

/-- `value.strftime("%Y-%m-%d")`. -/
def fmtDate (y m d : Nat) : String :=
  padNum 4 y ++ "-" ++ padNum 2 m ++ "-" ++ padNum 2 d

/-- `Hasher._serialize_datetime` output format
`YYYY-MM-DDTHH:MM:SS.ffffffZ` on the UTC field values. -/
def fmtInstant (y mo d hh mi ss us : Nat) : String :=
  fmtDate y mo d ++ "T" ++ padNum 2 hh ++ ":" ++ padNum 2 mi ++ ":"
    ++ padNum 2 ss ++ "." ++ padNum 6 us ++ "Z"

/-- `str.lower` restricted to ASCII letters (a UUID's string form is
ASCII). -/
def asciiLower (s : String) : String := String.mk (s.data.map Char.toLower)

def isJNull : JValue → Bool
  | .jnull => true
  | _ => false

mutual

/-- `Hasher._serialize_value`: convert one value to its JSON-serializable
canonical form, or fail with a `CanonicalSerializationError`.  `null`
passes through as `jnull` and is dropped later by the enclosing dict
(inside lists it survives, as in the source). -/
def serializeValue : CanonValue → Except String JValue
  | .null => .ok .jnull
  | .uuidv s => .ok (.jstr (asciiLower s))
  | .instantv aware y mo d hh mi ss us =>
    if aware then .ok (.jstr (fmtInstant y mo d hh mi ss us))
    else .error "datetime is timezone-naive"
  | .datev y m d => .ok (.jstr (fmtDate y m d))
  | .enumv s => .ok (.jstr s)
  | .boolv b => .ok (.jbool b)
  | .intv n => .ok (.jint n)
  | .floatv => .error "Cannot serialize float"
  | .decimalv s => .ok (.jstr s)
  | .strv s => .ok (.jstr s)
  | .listv xs => do pure (.jarr (← serializeList xs))
  | .mapv kvs => do
    let ps ← serializePairs kvs
    pure (.jobj (sortKVs (ps.filter fun p => !(isJNull p.2))))
  | .bytesv => .error "Cannot serialize bytes"
  | .setv => .error "Cannot serialize set"

def serializeList : List CanonValue → Except String (List JValue)
  | [] => .ok []
  | x :: xs => do pure ((← serializeValue x) :: (← serializeList xs))

/-- `Hasher._to_canonical_dict` body: serialize every value; sorting and
null-dropping are applied to the result (a serialization error is reported
in list order rather than sorted-key order; the success value is
identical). -/
def serializePairs : List (String × CanonValue) → Except String (List (String × JValue))
  | [] => .ok []
  | (k, v) :: kvs => do pure ((k, ← serializeValue v) :: (← serializePairs kvs))

end

/-- `Hasher._to_canonical_dict`: keys sorted, `None` values omitted. -/
def toCanonicalDict (kvs : List (String × CanonValue)) :
    Except String (List (String × JValue)) := do
  let ps ← serializePairs kvs
  pure (sortKVs (ps.filter fun p => !(isJNull p.2)))

/-- `Hasher.canonicalize`: require a dict at top level, canonicalize it,
inject the `__canon_v` version marker (a payload's own `"__canon_v"` entry
wins, as in `{"__canon_v": 1, **canonical_dict}`), and dump as compact
sorted ASCII JSON. -/
def canonicalize (data : CanonValue) : Except String String :=
  match data with
  | .mapv kvs => do
    let cd ← toCanonicalDict kvs
    let withV :=
      if cd.any (fun p => p.1 == "__canon_v") then cd
      else sortKVs (("__canon_v", JValue.jint 1) :: cd)
    pure (renderJ (.jobj withV))
  | _ => .error "Top-level canonicalization requires a dict/object"

/-- `Hasher.hash_data`: SHA-256 of the canonical UTF-8 bytes, lowercase
hex. -/
def hashData (data : CanonValue) : Except String String :=
  match canonicalize data with
  | .error e => .error e
  | .ok canonical => .ok (sha256String canonical)

def isHexLowerChar (c : Char) : Bool :=
  ("0123456789abcdef".data.contains c)

/-- The `previous_hash` format check in `Hasher.hash_event`: 64 characters,
all hex after lowercasing. -/
def isValidPrevHash (h : String) : Bool :=
  h.length == 64 && (asciiLower h).data.all isHexLowerChar

/-- `Hasher.hash_event`: genesis hashes the canonical payload alone;
chained events hash `lower(previous_hash) ++ ":" ++ canonical_payload`;
a malformed `previous_hash` is a serialization error. -/
def hashEvent (payload : CanonValue) (previousHash : Option String) :
    Except String String :=
  match canonicalize payload with
  | .error e => .error e
  | .ok canonicalPayload =>
    match previousHash with
    | none => .ok (sha256String canonicalPayload)
    | some h =>
      if isValidPrevHash h then
        .ok (sha256String (asciiLower h ++ ":" ++ canonicalPayload))
      else
        .error "Invalid previous_hash format"

/-! ### The S1 golden vector (`test_golden_canonical_format`) -/

/-- The S1 golden payload from `tests/test_ledger.py`. -/
def goldenPayload : CanonValue :=
  .mapv
    [("string", .strv "hello"),
     ("integer", .intv 42),
     ("decimal", .decimalv "3.14159"),
     ("boolean", .boolv true),
     ("null_omitted", .null),
     ("uuid", .uuidv "550e8400-e29b-41d4-a716-446655440000"),
     ("date", .datev 2024 1 15),
     ("datetime", .instantv true 2024 1 15 12 30 45 123456),
     ("nested", .mapv [("z_key", .strv "last"), ("a_key", .strv "first")]),
     ("list", .listv [.intv 1, .intv 2, .intv 3]),
     ("empty_string", .strv ""),
     ("empty_list", .listv [])]

def goldenCanonical : String :=
  "\x7b\"__canon_v\":1,\"boolean\":true,\"date\":\"2024-01-15\",\"datetime\":\"2024-01-15T12:30:45.123456Z\",\"decimal\":\"3.14159\",\"empty_list\":[],\"empty_string\":\"\",\"integer\":42,\"list\":[1,2,3],\"nested\":\x7b\"a_key\":\"first\",\"z_key\":\"last\"\x7d,\"string\":\"hello\",\"uuid\":\"550e8400-e29b-41d4-a716-446655440000\"\x7d"

/-- C1: canonicalizing the S1 golden payload (string, integer, decimal
string, boolean, one null field, UUID, date, instant, nested object, list,
empty string, empty list) produces exactly the pinned canonical byte string
(keys sorted, the null field omitted, no whitespace, `__canon_v` first),
and its SHA-256 equals the frozen constant. -/
theorem golden_vector_canonicalization :
    canonicalize goldenPayload = .ok goldenCanonical ∧
    hashData goldenPayload =
      .ok "8cdaf50a263888f11b2c3404ce14c8012641db34e98994e55fbb3989e8ee09cc" := by
  constructor
  · decide
  · decide

/-- C2: `hash_event(P, None)` is the SHA-256 of the canonical payload;
for a 64-hex-character previous hash (either case) it is the SHA-256 of
`lowercase(h) ++ ":" ++ canonical_payload`; any other previous hash is a
serialization error. -/
theorem hash_event_chain_input (P : CanonValue) (h : String) :
    hashEvent P none = (canonicalize P).map sha256String ∧
    (isValidPrevHash h = true →
      hashEvent P (some h) =
        (canonicalize P).map (fun c => sha256String (asciiLower h ++ ":" ++ c))) ∧
    (isValidPrevHash h = false → ∃ e, hashEvent P (some h) = .error e) := by
  refine ⟨?_, fun hv => ?_, fun hv => ?_⟩
  · cases hc : canonicalize P <;> simp [hashEvent, hc, Except.map]
  · cases hc : canonicalize P <;> simp [hashEvent, hc, Except.map, hv]
  · cases hc : canonicalize P <;> simp [hashEvent, hc, hv]

def w2Payload : CanonValue := .mapv [("k", .strv "v")]

def w2Good : String := "aaaaaaaaaaaaaaaaaaaaaaaaaaaaaaaaaaaaaaaaaaaaaaaaaaaaaaaaaaaaaaaa"

def w2Bad : String := "zz"

theorem hash_event_chain_input_witness :
    (isValidPrevHash w2Good = true ∧
      hashEvent w2Payload (some w2Good) =
        (canonicalize w2Payload).map
          (fun c => sha256String (asciiLower w2Good ++ ":" ++ c))) ∧
    (isValidPrevHash w2Bad = false ∧ ∃ e, hashEvent w2Payload (some w2Bad) = .error e) :=
  ⟨⟨by decide, (hash_event_chain_input w2Payload w2Good).2.1 (by decide)⟩,
   ⟨by decide, (hash_event_chain_input w2Payload w2Bad).2.2 (by decide)⟩⟩

/-! ## Merkle anchoring (`app/core/anchor.py`)

`MerkleTree` keeps only hashes on the path we model; the node structure's
`left`/`right`/`event_id` fields play no role in root computation, proof
generation or verification.  The `while len(nodes) > 1` loops are embedded
with explicit fuel (`leaves.length` steps always suffice, since each level
at least halves). -/

/-- `MerkleTree._hash_pair`: SHA-256 over the ASCII concatenation of the
two child hex strings. -/
def hashPair (l r : String) : String := sha256String (l ++ r)

/-- Leaf-level padding: if the number of nodes is odd, duplicate the last
node (`if len(nodes) % 2 == 1: nodes.append(nodes[-1])`). -/
def dupLastIfOdd (hs : List String) : List String :=
  if hs.length % 2 = 1 then hs ++ [hs.getLastD ""] else hs

/-- Inner-level padding: duplicate the last node only when more than one
node remains (`if len(next_level) > 1 and len(next_level) % 2 == 1`). -/
def padLevel (hs : List String) : List String :=
  if 1 < hs.length ∧ hs.length % 2 = 1 then hs ++ [hs.getLastD ""] else hs

/-- One level of parent hashes (`for i in range(0, len(nodes), 2)`); the
input always has even length on every reachable call. -/
def hashPairsUp : List String → List String
  | a :: b :: rest => hashPair a b :: hashPairsUp rest
  | _ => []

/-- The `while len(nodes) > 1` loop of `_build_tree`, fuelled. -/
def buildLoop : Nat → List String → List String
  | 0, ns => ns
  | fuel + 1, ns =>
    if ns.length ≤ 1 then ns
    else buildLoop fuel (padLevel (hashPairsUp ns))

/-- `MerkleTree.root_hash` as a function of the leaf hashes. -/
def rootHash (leaves : List String) : String :=
  (buildLoop leaves.length (dupLastIfOdd leaves)).headD ""

/-- `list.index`: index of the first occurrence. -/
def indexOfLeaf (target : String) : List String → Option Nat
  | [] => none
  | h :: t => if h = target then some 0 else (indexOfLeaf target t).map (· + 1)

/-- The sibling-collecting loop of `get_proof_hashes`, fuelled like
`buildLoop`. -/
def proofLoop : Nat → Nat → List String → List String × List String
  | 0, _, _ => ([], [])
  | fuel + 1, i, lvl =>
    if lvl.length ≤ 1 then ([], [])
    else
      let sib := if i % 2 = 0 then i + 1 else i - 1
      let dir := if i % 2 = 0 then "right" else "left"
      let rest := proofLoop fuel (i / 2) (padLevel (hashPairsUp lvl))
      (lvl.getD sib "" :: rest.1, dir :: rest.2)

/-- `MerkleTree.get_proof_hashes`: `None` when the hash is not a leaf,
otherwise the parallel `(proof_hashes, proof_directions)` arrays. -/
def getProofHashes (leaves : List String) (eventHash : String) :
    Option (List String × List String) :=
  match indexOfLeaf eventHash leaves with
  | none => none
  | some i => some (proofLoop leaves.length i (dupLastIfOdd leaves))

/-- One step of `verify_proof`: a `"left"` sibling is hashed in front of
the running value, anything else behind it. -/
def verifyStep (cur : String) : String × String → String
  | (sib, dir) => if dir = "left" then hashPair sib cur else hashPair cur sib

/-- `MerkleTree.verify_proof`. -/
def verifyProof (eventHash : String) (proofHashes proofDirections : List String)
    (expectedRoot : String) : Bool :=
  decide (((proofHashes.zip proofDirections).foldl verifyStep eventHash) = expectedRoot)

theorem hashPairsUp_length (l : List String) : (hashPairsUp l).length = l.length / 2 := by
  match l with
  | [] => rfl
  | [_] => simp [hashPairsUp]
  | a :: b :: rest =>
    simp only [hashPairsUp, List.length_cons]
    rw [hashPairsUp_length rest]
    omega

theorem hashPairsUp_getD (j : Nat) (l : List String) (h : 2 * j + 1 < l.length) :
    (hashPairsUp l).getD j "" = hashPair (l.getD (2 * j) "") (l.getD (2 * j + 1) "") := by
  induction j generalizing l with
  | zero =>
    match l, h with
    | a :: b :: rest, _ => simp [hashPairsUp]
  | succ j ih =>
    match l, h with
    | a :: b :: rest, h =>
      have h' : 2 * j + 1 < rest.length := by simp at h; omega
      have e2 : 2 * (j + 1) = 2 * j + 1 + 1 := by omega
      simp only [hashPairsUp, e2, List.getD_cons_succ]
      exact ih rest h'

theorem getD_append_left {l : List String} (x : List String) (j : Nat)
    (h : j < l.length) : (l ++ x).getD j "" = l.getD j "" := by
  rw [List.getD_eq_getElem?_getD, List.getD_eq_getElem?_getD,
      List.getElem?_append_left h]

theorem padLevel_length (l : List String) :
    (padLevel l).length = l.length ∨
    ((padLevel l).length = l.length + 1 ∧ l.length % 2 = 1 ∧ 1 < l.length) := by
  unfold padLevel
  split
  · rename_i hsp
    right
    refine ⟨?_, hsp.2, hsp.1⟩
    simp
  · left; rfl

theorem padLevel_getD (l : List String) (j : Nat) (h : j < l.length) :
    (padLevel l).getD j "" = l.getD j "" := by
  unfold padLevel
  split
  · exact getD_append_left _ _ h
  · rfl

/-- Invariant proof: walking the proof loop from leaf index `i` replays the
fold of `verify_proof` and lands on the head of the built level sequence. -/
theorem proofLoop_correct (fuel : Nat) (lvl : List String) (i : Nat)
    (heven : lvl.length % 2 = 0 ∨ lvl.length ≤ 1)
    (hi : i < lvl.length)
    (hfuel : lvl.length ≤ 2 ^ fuel) :
    ((proofLoop fuel i lvl).1.zip (proofLoop fuel i lvl).2).foldl verifyStep
        (lvl.getD i "") =
      (buildLoop fuel lvl).headD "" := by
  induction fuel generalizing lvl i with
  | zero =>
    have h1 : lvl.length ≤ 1 := by simpa using hfuel
    have hi0 : i = 0 := by omega
    subst hi0
    match lvl, hi with
    | [x], _ => simp [proofLoop, buildLoop]
  | succ fuel ih =>
    by_cases hlen : lvl.length ≤ 1
    · have hi0 : i = 0 := by omega
      subst hi0
      match lvl, hi with
      | [x], _ => simp [proofLoop, buildLoop]
    · have hlen2 : 2 ≤ lvl.length := by omega
      have hev : lvl.length % 2 = 0 := by
        rcases heven with h | h
        · exact h
        · omega
      have hnl : (hashPairsUp lvl).length = lvl.length / 2 := hashPairsUp_length lvl
      have hieven : 2 * (i / 2) + 1 < lvl.length := by omega
      have hplen := padLevel_length (hashPairsUp lvl)
      have hngetD : (padLevel (hashPairsUp lvl)).getD (i / 2) "" =
          (hashPairsUp lvl).getD (i / 2) "" :=
        padLevel_getD _ _ (by omega)
      have hinext : i / 2 < (padLevel (hashPairsUp lvl)).length := by
        rcases hplen with h | ⟨h, _, _⟩ <;> omega
      have hevnext : (padLevel (hashPairsUp lvl)).length % 2 = 0 ∨
          (padLevel (hashPairsUp lvl)).length ≤ 1 := by
        rcases hplen with h | ⟨h, hodd, _⟩
        · rcases Nat.lt_or_ge ((hashPairsUp lvl).length) 2 with hsmall | hbig
          · right; omega
          · rcases Nat.even_or_odd ((hashPairsUp lvl).length) with he | ho
            · left
              obtain ⟨k, hk⟩ := he
              omega
            · -- odd and > 1 would have been padded
              exfalso
              obtain ⟨k, hk⟩ := ho
              unfold padLevel at h
              rw [if_pos ⟨by omega, by omega⟩] at h
              simp at h
        · left; omega
      have hfnext : (padLevel (hashPairsUp lvl)).length ≤ 2 ^ fuel := by
        have hhalf : lvl.length / 2 ≤ 2 ^ fuel := by
          have h2p : (2 : Nat) ^ (fuel + 1) = 2 ^ fuel * 2 := Nat.pow_succ ..
          omega
        rcases hplen with h | ⟨h, hodd, hgt⟩
        · omega
        · rcases Nat.lt_or_ge ((hashPairsUp lvl).length) (2 ^ fuel) with hlt | hge
          · omega
          · exfalso
            have heq : (hashPairsUp lvl).length = 2 ^ fuel := by omega
            rcases Nat.eq_zero_or_pos fuel with hf0 | hfpos
            · subst hf0
              simp at heq
              omega
            · have h2e : (2 : Nat) ^ fuel = 2 * 2 ^ (fuel - 1) := by
                rw [← Nat.pow_succ']
                congr 1
                omega
              omega
      have hrec := ih (padLevel (hashPairsUp lvl)) (i / 2) hevnext hinext hfnext
      have hstep :
          verifyStep (lvl.getD i "")
              (lvl.getD (if i % 2 = 0 then i + 1 else i - 1) "",
               if i % 2 = 0 then "right" else "left") =
            (hashPairsUp lvl).getD (i / 2) "" := by
        rw [hashPairsUp_getD (i / 2) lvl hieven]
        by_cases hpar : i % 2 = 0
        · have e2 : 2 * (i / 2) + 1 = i + 1 := by omega
          have e1 : 2 * (i / 2) = i := by omega
          rw [e2, e1]
          simp [verifyStep, hpar]
        · have hp1 : i % 2 = 1 := by omega
          have e2 : 2 * (i / 2) + 1 = i := by omega
          have e1 : 2 * (i / 2) = i - 1 := by omega
          rw [e2, e1]
          simp [verifyStep, hpar]
      have hbuild : buildLoop (fuel + 1) lvl =
          if lvl.length ≤ 1 then lvl
          else buildLoop fuel (padLevel (hashPairsUp lvl)) := rfl
      have hproof : proofLoop (fuel + 1) i lvl =
          if lvl.length ≤ 1 then ([], [])
          else
            (lvl.getD (if i % 2 = 0 then i + 1 else i - 1) "" ::
              (proofLoop fuel (i / 2) (padLevel (hashPairsUp lvl))).1,
             (if i % 2 = 0 then "right" else "left") ::
              (proofLoop fuel (i / 2) (padLevel (hashPairsUp lvl))).2) := rfl
      rw [hbuild, hproof, if_neg hlen, if_neg hlen]
      simp only [List.zip_cons_cons, List.foldl_cons]
      rw [hstep, ← hngetD]
      exact hrec

theorem indexOfLeaf_spec (target : String) (l : List String) (h : target ∈ l) :
    ∃ i, indexOfLeaf target l = some i ∧ i < l.length ∧ l.getD i "" = target := by
  induction l with
  | nil => cases h
  | cons a t ih =>
    by_cases ha : a = target
    · exact ⟨0, by simp [indexOfLeaf, ha], by simp, by simp [ha]⟩
    · have ht : target ∈ t := by
        rcases List.mem_cons.mp h with h1 | h1
        · exact absurd h1.symm ha
        · exact h1
      obtain ⟨i, hi1, hi2, hi3⟩ := ih ht
      refine ⟨i + 1, ?_, ?_, ?_⟩
      · simp [indexOfLeaf, ha, hi1]
      · simp; omega
      · simpa using hi3

def mtLeaves : List String :=
  [String.mk (List.replicate 64 'a'), String.mk (List.replicate 64 'b'),
   String.mk (List.replicate 64 'c'), String.mk (List.replicate 64 'd')]

def mtTarget : String := String.mk (List.replicate 64 'b')

def mtProof : List String × List String :=
  (getProofHashes mtLeaves mtTarget).getD ([], [])

/-- The S5 tamper experiment's direction flip: every `"left"` becomes
`"right"` and vice versa. -/
def flipDir (d : String) : String := if d = "left" then "right" else "left"

/-- C6: a Merkle proof generated by `get_proof_hashes` for any leaf of any
non-empty list of distinct leaf hashes verifies against `root_hash`; a
single-leaf tree's root is the hash of the leaf paired with itself; and on
the concrete four-leaf batch of S5, flipping every direction or swapping
the two proof hashes makes `verify_proof` reject. -/
theorem merkle_inclusion_and_tamper (leaves : List String) (h : String)
    (hne : leaves ≠ []) (_hnd : leaves.Nodup) (hmem : h ∈ leaves) :
    (∃ ph pd, getProofHashes leaves h = some (ph, pd) ∧
      verifyProof h ph pd (rootHash leaves) = true) ∧
    (∀ g : String, rootHash [g] = hashPair g g) ∧
    verifyProof mtTarget mtProof.1 mtProof.2 (rootHash mtLeaves) = true ∧
    verifyProof mtTarget mtProof.1 (mtProof.2.map flipDir) (rootHash mtLeaves) = false ∧
    verifyProof mtTarget mtProof.1.reverse mtProof.2 (rootHash mtLeaves) = false := by
  have hsingle : ∀ g : String, rootHash [g] = hashPair g g := by
    intro g
    simp [rootHash, dupLastIfOdd, buildLoop, hashPairsUp, padLevel]
  refine ⟨?_, hsingle, by decide, by decide, by decide⟩
  obtain ⟨i, hfind, hlt, hval⟩ := indexOfLeaf_spec h leaves hmem
  refine ⟨(proofLoop leaves.length i (dupLastIfOdd leaves)).1,
          (proofLoop leaves.length i (dupLastIfOdd leaves)).2, ?_, ?_⟩
  · simp [getProofHashes, hfind]
  · have hlen0 : 0 < leaves.length := List.length_pos.mpr hne
    have hpadlen : leaves.length ≤ (dupLastIfOdd leaves).length := by
      unfold dupLastIfOdd
      split
      · simp
      · exact Nat.le_refl _
    have hgetD : (dupLastIfOdd leaves).getD i "" = leaves.getD i "" := by
      unfold dupLastIfOdd
      split
      · exact getD_append_left _ _ hlt
      · rfl
    have heven : (dupLastIfOdd leaves).length % 2 = 0 ∨
        (dupLastIfOdd leaves).length ≤ 1 := by
      left
      unfold dupLastIfOdd
      split
      · rename_i hsp
        simp only [List.length_append, List.length_singleton]
        omega
      · rename_i hsp
        omega
    have hfuel : (dupLastIfOdd leaves).length ≤ 2 ^ leaves.length := by
      have h1 : (dupLastIfOdd leaves).length ≤ leaves.length + 1 := by
        unfold dupLastIfOdd
        split
        · simp
        · omega
      have h2 : leaves.length + 1 ≤ 2 ^ leaves.length := by
        have := Nat.lt_two_pow leaves.length
        omega
      omega
    have hcorr := proofLoop_correct leaves.length (dupLastIfOdd leaves) i heven
      (by omega) hfuel
    unfold verifyProof rootHash
    rw [hgetD, hval] at hcorr
    rw [hcorr]
    exact decide_eq_true rfl

theorem merkle_inclusion_and_tamper_witness :
    (mtLeaves ≠ [] ∧ mtLeaves.Nodup ∧ mtTarget ∈ mtLeaves) ∧
    (∃ ph pd, getProofHashes mtLeaves mtTarget = some (ph, pd) ∧
      verifyProof mtTarget ph pd (rootHash mtLeaves) = true) :=
  ⟨⟨by decide, by decide, by decide⟩,
   (merkle_inclusion_and_tamper mtLeaves mtTarget (by decide) (by decide)
     (by decide)).1⟩

/-! ## Ledger events and chain verification (`app/core/ledger.py`)

`LedgerEvent` (from `app/schemas/events.py`) is embedded with identifiers
(UUIDs) and timestamps carried as strings; `sequence_number` is an `Int`
to match the store's `-1`-based head arithmetic. -/

inductive EventTypeM where
  | editorRegistered
  | editorDeactivated
  | claimDeclared
  | claimOperationalized
  | evidenceAdded
  | claimResolved
deriving DecidableEq, Repr

structure LedgerEventM where
  eventId : String
  sequenceNumber : Int
  eventType : EventTypeM
  entityId : String
  entityType : String
  payload : CanonValue
  previousEventHash : Option String
  eventHash : String
  createdBy : String
  editorSignature : String
  createdAt : String

/-- The loop body of `LedgerService.verify_chain_integrity`: sequence
check, genesis rules, hash recomputation against the running previous
hash, chain linkage.  A payload that cannot be canonicalized propagates as
a `CanonicalSerializationError` (the Python loop does not catch it). -/
def verifyLoop : Option String → Int → List LedgerEventM → Except String Bool
  | _, _, [] => .ok true
  | prevHash, expectedSeq, e :: rest =>
    if e.sequenceNumber ≠ expectedSeq then .ok false
    else if expectedSeq = 0 ∧ e.previousEventHash ≠ none then .ok false
    else if expectedSeq ≠ 0 ∧ e.previousEventHash = none then .ok false
    else
      match hashEvent e.payload prevHash with
      | .error err => .error err
      | .ok computed =>
        if computed ≠ e.eventHash then .ok false
        else if e.previousEventHash ≠ prevHash then .ok false
        else verifyLoop (some e.eventHash) (expectedSeq + 1) rest

/-- `LedgerService.verify_chain_integrity` over the cached event list. -/
def verifyChainIntegrity (events : List LedgerEventM) : Except String Bool :=
  verifyLoop none 0 events

theorem verifyLoop_sig_independent (evs : List LedgerEventM) (ph : Option String)
    (seq : Int) (f : LedgerEventM → String) :
    verifyLoop ph seq (evs.map fun e => { e with editorSignature := f e }) =
      verifyLoop ph seq evs := by
  induction evs generalizing ph seq with
  | nil => rfl
  | cons ev rest ih =>
    simp only [List.map_cons, verifyLoop]
    by_cases h1 : ev.sequenceNumber ≠ seq
    · simp [h1]
    · simp only [h1, if_false, ite_false, if_neg h1]
      by_cases h2 : seq = 0 ∧ ev.previousEventHash ≠ none
      · simp [h2]
      · simp only [if_neg h2]
        by_cases h3 : seq ≠ 0 ∧ ev.previousEventHash = none
        · simp [h3]
        · simp only [if_neg h3]
          cases hh : hashEvent ev.payload ph with
          | error err => rfl
          | ok computed =>
            by_cases h4 : computed ≠ ev.eventHash
            · simp [h4]
            · simp only [if_neg h4]
              by_cases h5 : ev.previousEventHash ≠ ph
              · simp [h5]
              · simp only [if_neg h5]
                exact ih (some ev.eventHash) (seq + 1)

theorem verifyLoop_sound (evs : List LedgerEventM) (ph : Option String) (seq : Int)
    (hok : verifyLoop ph seq evs = .ok true) :
    ∀ i e, evs.get? i = some e →
      e.sequenceNumber = seq + i ∧
      hashEvent e.payload e.previousEventHash = .ok e.eventHash ∧
      (i = 0 → e.previousEventHash = ph) ∧
      (∀ p, evs.get? (i - 1) = some p → i ≠ 0 →
        e.previousEventHash = some p.eventHash) := by
  induction evs generalizing ph seq with
  | nil => intro i e h; simp at h
  | cons ev rest ih =>
    simp only [verifyLoop] at hok
    by_cases h1 : ev.sequenceNumber ≠ seq
    · simp [h1] at hok
    · rw [if_neg h1] at hok
      by_cases h2 : seq = 0 ∧ ev.previousEventHash ≠ none
      · simp [h2] at hok
      · rw [if_neg h2] at hok
        by_cases h3 : seq ≠ 0 ∧ ev.previousEventHash = none
        · simp [h3] at hok
        · rw [if_neg h3] at hok
          cases hh : hashEvent ev.payload ph with
          | error err => rw [hh] at hok; exact absurd hok (by simp)
          | ok computed =>
            rw [hh] at hok
            replace hok :
                (if computed ≠ ev.eventHash then Except.ok false
                 else if ev.previousEventHash ≠ ph then Except.ok false
                 else verifyLoop (some ev.eventHash) (seq + 1) rest) =
                  Except.ok true := hok
            by_cases h4 : computed ≠ ev.eventHash
            · simp [h4] at hok
            · rw [if_neg h4] at hok
              by_cases h5 : ev.previousEventHash ≠ ph
              · simp [h5] at hok
              · rw [if_neg h5] at hok
                push_neg at h1 h4 h5
                intro i e hget
                match i, hget with
                | 0, hget =>
                  have he : e = ev := by have := hget; simp at this; exact this.symm
                  subst he
                  refine ⟨by simpa using h1, ?_, fun _ => h5, fun p hp hi0 => absurd rfl hi0⟩
                  rw [h5, hh, h4]
                | (j + 1), hget =>
                  have hget' : rest.get? j = some e := by simpa using hget
                  obtain ⟨ha, hb, hc, hd⟩ := ih (some ev.eventHash) (seq + 1) hok j e hget'
                  refine ⟨by rw [ha]; push_cast; ring, hb, fun hj0 => by omega, ?_⟩
                  intro p hp _
                  match j, hp with
                  | 0, hp =>
                    have hpev : p = ev := by have := hp; simp at this; exact this.symm
                    subst hpev
                    exact hc rfl
                  | (j' + 1), hp =>
                    have hp' : rest.get? j' = some p := by simpa using hp
                    exact hd p (by simpa using hp') (by omega)

/-- C3 (amended): `verify_chain_integrity` checks contiguous sequence
numbers from 0, the genesis/non-genesis `previous_event_hash` rules, hash
recomputation and chain linkage — but it never verifies editor signatures:
its result is invariant under arbitrary rewriting of every event's
`editor_signature`. -/
theorem verify_chain_integrity_checks (events : List LedgerEventM)
    (f : LedgerEventM → String) :
    (verifyChainIntegrity (events.map fun e => { e with editorSignature := f e }) =
      verifyChainIntegrity events) ∧
    (verifyChainIntegrity events = .ok true →
      ∀ i e, events.get? i = some e →
        e.sequenceNumber = (i : Int) ∧
        (i = 0 → e.previousEventHash = none) ∧
        (∀ p, events.get? (i - 1) = some p → i ≠ 0 →
          e.previousEventHash = some p.eventHash) ∧
        hashEvent e.payload e.previousEventHash = .ok e.eventHash) := by
  constructor
  · exact verifyLoop_sig_independent events none 0 f
  · intro hok i e hget
    obtain ⟨ha, hb, hc, hd⟩ := verifyLoop_sound events none 0 hok i e hget
    exact ⟨by simpa using ha, hc, hd, hb⟩

/-- A concrete valid one-event chain; its `event_hash` is the SHA-256 of
`\x7b"__canon_v":1,"k":"v"\x7d`. -/
def c3Event : LedgerEventM :=
  { eventId := "11111111-1111-1111-1111-111111111111"
    sequenceNumber := 0
    eventType := .editorRegistered
    entityId := "ed-1"
    entityType := "editor"
    payload := .mapv [("k", .strv "v")]
    previousEventHash := none
    eventHash := "daaeb332256d52061377c46b3fa7b1347f7dd2df06ed94ddad428129f0f05362"
    createdBy := "ed-1"
    editorSignature := "c2lnbmF0dXJl"
    createdAt := "2026-01-01T00:00:00.000000Z" }

/-- C3 counterexample: the chain-integrity verification accepts the same
chain whether its event carries its genuine signature or a string that is
not a signature at all — no signature verification happens. -/
theorem verify_chain_ignores_signatures_cex :
    verifyChainIntegrity [c3Event] = .ok true ∧
    verifyChainIntegrity [{ c3Event with editorSignature := "not a signature" }] =
      .ok true ∧
    c3Event.editorSignature ≠ "not a signature" := by
  exact ⟨by decide, by decide, by decide⟩

theorem verify_chain_integrity_checks_witness :
    verifyChainIntegrity [c3Event] = .ok true ∧
    (c3Event.sequenceNumber = ((0 : Nat) : Int) ∧
      ((0 : Nat) = 0 → c3Event.previousEventHash = none) ∧
      (∀ p, [c3Event].get? ((0 : Nat) - 1) = some p → (0 : Nat) ≠ 0 →
        c3Event.previousEventHash = some p.eventHash) ∧
      hashEvent c3Event.payload c3Event.previousEventHash = .ok c3Event.eventHash) :=
  ⟨by decide,
   (verify_chain_integrity_checks [c3Event] (fun e => e.editorSignature)).2
     (by decide) 0 c3Event (by simp)⟩

/-! ## Event stores (`app/db/store.py`)

The commit step of both stores is a pure function of the store state and
the event: `_do_commit` re-reads the head (under the held lock in the
source; lock and connection plumbing carry no state visible to the checks)
and validates sequence, previous hash and recomputed event hash before
persisting. -/

inductive LedgerErr where
  | validation (msg : String)
  | editor (msg : String)
  | chain (msg : String)
  | canon (msg : String)
  | valueErr (msg : String)
  | storeErr (msg : String)
  | concurrency (msg : String)
  | chainIntegrity (msg : String)
deriving DecidableEq, Repr

structure ChainHeadM where
  lastSequence : Int
  lastEventHash : Option String
deriving DecidableEq, Repr

def ChainHeadM.nextSequence (h : ChainHeadM) : Int := h.lastSequence + 1

structure InMemState where
  events : List LedgerEventM
  head : ChainHeadM

/-- `InMemoryEventStore._do_commit`: sequence, previous-hash and
recomputed-hash validation all reject with `ChainIntegrityError`; on
success the event is appended and the head becomes
`(event.sequence_number, event.event_hash)`. -/
def inMemDoCommit (s : InMemState) (e : LedgerEventM) : Except LedgerErr InMemState :=
  let expectedSequence := s.head.lastSequence + 1
  if e.sequenceNumber ≠ expectedSequence then
    .error (.chainIntegrity "Sequence mismatch")
  else if expectedSequence = 0 ∧ e.previousEventHash ≠ none then
    .error (.chainIntegrity "Genesis event must have previous_event_hash=None")
  else if expectedSequence ≠ 0 ∧ e.previousEventHash ≠ s.head.lastEventHash then
    .error (.chainIntegrity "Previous hash mismatch")
  else
    match hashEvent e.payload e.previousEventHash with
    | .error err => .error (.canon err)
    | .ok computed =>
      if computed ≠ e.eventHash then
        .error (.chainIntegrity "Hash verification failed")
      else
        .ok { events := s.events ++ [e],
              head := { lastSequence := e.sequenceNumber,
                        lastEventHash := some e.eventHash } }

structure PgState where
  rows : List (LedgerEventM × String × Nat)
  head : ChainHeadM

/-- `PostgresEventStore._do_commit`: sequence and (non-genesis)
previous-hash mismatches reject with `ConcurrencyError`, a genesis event
with a previous hash and a recomputed-hash mismatch with
`ChainIntegrityError`; on success the row `(event, payload_canon,
canon_version)` is inserted and the head row updated. -/
def pgDoCommit (db : PgState) (e : LedgerEventM) (payloadCanon : String)
    (canonVersion : Nat) : Except LedgerErr PgState :=
  let expectedSequence := db.head.lastSequence + 1
  if e.sequenceNumber ≠ expectedSequence then
    .error (.concurrency "Sequence mismatch: state changed unexpectedly")
  else if expectedSequence = 0 ∧ e.previousEventHash ≠ none then
    .error (.chainIntegrity "Genesis event must have previous_event_hash=None")
  else if expectedSequence ≠ 0 ∧ e.previousEventHash ≠ db.head.lastEventHash then
    .error (.concurrency "Previous hash mismatch: state changed unexpectedly")
  else
    match hashEvent e.payload e.previousEventHash with
    | .error err => .error (.canon err)
    | .ok computed =>
      if computed ≠ e.eventHash then
        .error (.chainIntegrity "Hash verification failed")
      else
        .ok { rows := db.rows ++ [(e, payloadCanon, canonVersion)],
              head := { lastSequence := e.sequenceNumber,
                        lastEventHash := some e.eventHash } }

/-- C7 (amended): commit re-validates the event against the re-read head
and, in the Postgres store, rejects a sequence-number or previous-hash
mismatch with a concurrency-conflict error, while the in-memory store
rejects both with a chain-integrity error; both reject a recomputed-hash
mismatch with a chain-integrity error, and on success both persist the
event and set the head to `(event.sequence_number, event.event_hash)`. -/
theorem store_commit_checks (s : InMemState) (db : PgState) (e e' : LedgerEventM)
    (pc : String) (cv : Nat) :
    (e.sequenceNumber ≠ s.head.lastSequence + 1 →
      ∃ m, inMemDoCommit s e = .error (.chainIntegrity m)) ∧
    (e.sequenceNumber = s.head.lastSequence + 1 → e.sequenceNumber ≠ 0 →
      e.previousEventHash ≠ s.head.lastEventHash →
      ∃ m, inMemDoCommit s e = .error (.chainIntegrity m)) ∧
    (e.sequenceNumber = s.head.lastSequence + 1 →
      (e.sequenceNumber = 0 → e.previousEventHash = none) →
      (e.sequenceNumber ≠ 0 → e.previousEventHash = s.head.lastEventHash) →
      ∀ c, hashEvent e.payload e.previousEventHash = .ok c → c ≠ e.eventHash →
      ∃ m, inMemDoCommit s e = .error (.chainIntegrity m)) ∧
    (e.sequenceNumber = s.head.lastSequence + 1 →
      (e.sequenceNumber = 0 → e.previousEventHash = none) →
      (e.sequenceNumber ≠ 0 → e.previousEventHash = s.head.lastEventHash) →
      hashEvent e.payload e.previousEventHash = .ok e.eventHash →
      inMemDoCommit s e =
        .ok ⟨s.events ++ [e], ⟨e.sequenceNumber, some e.eventHash⟩⟩) ∧
    (e'.sequenceNumber ≠ db.head.lastSequence + 1 →
      ∃ m, pgDoCommit db e' pc cv = .error (.concurrency m)) ∧
    (e'.sequenceNumber = db.head.lastSequence + 1 → e'.sequenceNumber ≠ 0 →
      e'.previousEventHash ≠ db.head.lastEventHash →
      ∃ m, pgDoCommit db e' pc cv = .error (.concurrency m)) ∧
    (e'.sequenceNumber = db.head.lastSequence + 1 →
      (e'.sequenceNumber = 0 → e'.previousEventHash = none) →
      (e'.sequenceNumber ≠ 0 → e'.previousEventHash = db.head.lastEventHash) →
      ∀ c, hashEvent e'.payload e'.previousEventHash = .ok c → c ≠ e'.eventHash →
      ∃ m, pgDoCommit db e' pc cv = .error (.chainIntegrity m)) ∧
    (e'.sequenceNumber = db.head.lastSequence + 1 →
      (e'.sequenceNumber = 0 → e'.previousEventHash = none) →
      (e'.sequenceNumber ≠ 0 → e'.previousEventHash = db.head.lastEventHash) →
      hashEvent e'.payload e'.previousEventHash = .ok e'.eventHash →
      pgDoCommit db e' pc cv =
        .ok ⟨db.rows ++ [(e', pc, cv)], ⟨e'.sequenceNumber, some e'.eventHash⟩⟩) := by
  refine ⟨fun h1 => ⟨"Sequence mismatch", by simp [inMemDoCommit, h1]⟩,
          fun h1 h2 h3 => ?_, fun h1 h2 h3 c hc hne => ?_, fun h1 h2 h3 hc => ?_,
          fun h1 => ⟨"Sequence mismatch: state changed unexpectedly", by simp [pgDoCommit, h1]⟩,
          fun h1 h2 h3 => ?_, fun h1 h2 h3 c hc hne => ?_, fun h1 h2 h3 hc => ?_⟩
  · refine ⟨"Previous hash mismatch", ?_⟩
    have hng : ¬(e.sequenceNumber = 0 ∧ e.previousEventHash ≠ none) := by
      intro ⟨ha, _⟩; exact h2 ha
    simp only [inMemDoCommit]
    rw [if_neg (by rw [h1] at h2 ⊢; simp), if_neg (by rw [← h1]; exact hng),
        if_pos (by rw [← h1]; exact ⟨h2, h3⟩)]
  · refine ⟨"Hash verification failed", ?_⟩
    have hng : ¬(e.sequenceNumber = 0 ∧ e.previousEventHash ≠ none) := by
      intro ⟨ha, hb⟩; exact hb (h2 ha)
    have hnp : ¬(e.sequenceNumber ≠ 0 ∧ e.previousEventHash ≠ s.head.lastEventHash) := by
      intro ⟨ha, hb⟩; exact hb (h3 ha)
    simp only [inMemDoCommit]
    rw [if_neg (by rw [h1] at h2 hng hnp ⊢; simp), if_neg (by rw [← h1]; exact hng),
        if_neg (by rw [← h1]; exact hnp), hc]
    exact if_pos hne
  · have hng : ¬(e.sequenceNumber = 0 ∧ e.previousEventHash ≠ none) := by
      intro ⟨ha, hb⟩; exact hb (h2 ha)
    have hnp : ¬(e.sequenceNumber ≠ 0 ∧ e.previousEventHash ≠ s.head.lastEventHash) := by
      intro ⟨ha, hb⟩; exact hb (h3 ha)
    simp only [inMemDoCommit]
    rw [if_neg (by rw [h1] at hng hnp ⊢; simp), if_neg (by rw [← h1]; exact hng),
        if_neg (by rw [← h1]; exact hnp), hc]
    exact if_neg (by simp)
  · refine ⟨"Previous hash mismatch: state changed unexpectedly", ?_⟩
    have hng : ¬(e'.sequenceNumber = 0 ∧ e'.previousEventHash ≠ none) := by
      intro ⟨ha, _⟩; exact h2 ha
    simp only [pgDoCommit]
    rw [if_neg (by rw [h1] at h2 ⊢; simp), if_neg (by rw [← h1]; exact hng),
        if_pos (by rw [← h1]; exact ⟨h2, h3⟩)]
  · refine ⟨"Hash verification failed", ?_⟩
    have hng : ¬(e'.sequenceNumber = 0 ∧ e'.previousEventHash ≠ none) := by
      intro ⟨ha, hb⟩; exact hb (h2 ha)
    have hnp : ¬(e'.sequenceNumber ≠ 0 ∧ e'.previousEventHash ≠ db.head.lastEventHash) := by
      intro ⟨ha, hb⟩; exact hb (h3 ha)
    simp only [pgDoCommit]
    rw [if_neg (by rw [h1] at h2 hng hnp ⊢; simp), if_neg (by rw [← h1]; exact hng),
        if_neg (by rw [← h1]; exact hnp), hc]
    exact if_pos hne
  · have hng : ¬(e'.sequenceNumber = 0 ∧ e'.previousEventHash ≠ none) := by
      intro ⟨ha, hb⟩; exact hb (h2 ha)
    have hnp : ¬(e'.sequenceNumber ≠ 0 ∧ e'.previousEventHash ≠ db.head.lastEventHash) := by
      intro ⟨ha, hb⟩; exact hb (h3 ha)
    simp only [pgDoCommit]
    rw [if_neg (by rw [h1] at hng hnp ⊢; simp), if_neg (by rw [← h1]; exact hng),
        if_neg (by rw [← h1]; exact hnp), hc]
    exact if_neg (by simp)

def c7Store : InMemState :=
  { events := [], head := { lastSequence := -1, lastEventHash := none } }

def c7Event : LedgerEventM :=
  { eventId := "22222222-2222-2222-2222-222222222222"
    sequenceNumber := 5
    eventType := .claimDeclared
    entityId := "cl-1"
    entityType := "claim"
    payload := .mapv []
    previousEventHash := none
    eventHash := "daaeb332256d52061377c46b3fa7b1347f7dd2df06ed94ddad428129f0f05362"
    createdBy := "ed-1"
    editorSignature := "c2ln"
    createdAt := "2026-01-01T00:00:00.000000Z" }

/-- C7 counterexample: the in-memory store rejects a sequence-number
mismatch with a `ChainIntegrityError`, not the concurrency-conflict error
the claim requires. -/
theorem inmem_commit_error_kind_cex :
    inMemDoCommit c7Store c7Event = .error (.chainIntegrity "Sequence mismatch") ∧
    (∀ m, inMemDoCommit c7Store c7Event ≠ .error (.concurrency m)) := by
  have h0 : inMemDoCommit c7Store c7Event =
      .error (.chainIntegrity "Sequence mismatch") := rfl
  refine ⟨h0, fun m h => ?_⟩
  rw [h0] at h
  simp at h

theorem store_commit_checks_witness :
    (c7Event.sequenceNumber ≠ c7Store.head.lastSequence + 1) ∧
    (∃ m, inMemDoCommit c7Store c7Event = .error (.chainIntegrity m)) :=
  ⟨by decide,
   (store_commit_checks c7Store ⟨[], ⟨-1, none⟩⟩ c7Event c7Event "pc" 1).1 (by decide)⟩

/-! ## LedgerService write operations (`app/core/ledger.py`)

The service state bundles the store (an abstract type `σ` behind the
`EventStore` interface, as `LedgerService` accepts any implementation) and
the cached projections.  Crypto is threaded through an environment:
`Signer.sign` (which can raise on malformed key material) and
`Signer.verify`, plus the `uuid4()` event id and `datetime.now` timestamp
that the Python code draws at event creation.  Python dicts are embedded
as association lists with `dget`/`dset` lookup and overwrite. -/

inductive ClaimStatusM where
  | declared
  | operationalized
  | observing
  | resolved
deriving DecidableEq, Repr

structure RegisteredEditorM where
  editorId : String
  username : String
  displayName : String
  role : String
  publicKey : String
  isActive : Bool
  registeredAt : String
  registeredBy : Option String
deriving DecidableEq, Repr

def dget {α : Type} (k : String) : List (String × α) → Option α
  | [] => none
  | (k', v) :: rest => if k' = k then some v else dget k rest

def dset {α : Type} (k : String) (v : α) : List (String × α) → List (String × α)
  | [] => [(k, v)]
  | (k', v') :: rest => if k' = k then (k, v) :: rest else (k', v') :: dset k v rest

structure EventStoreIface (σ : Type) where
  reserveHead : σ → Except LedgerErr (ChainHeadM × σ)
  commitAppend : σ → LedgerEventM → String → Nat → Except LedgerErr σ
  rollback : σ → σ

structure LedgerEnv where
  sign : String → String → Except LedgerErr String
  verify : String → String → String → Bool
  newEventId : String
  now : String

structure LedgerState (σ : Type) where
  store : σ
  events : List LedgerEventM
  claims : List (String × ClaimStatusM)
  claimEvidence : List (String × List String)
  editors : List (String × RegisteredEditorM)
  publicKeyToEditor : List (String × String)
  lastHash : Option String
  nextSequence : Int

/-- `LedgerService._validate_editor_for_action`. -/
def validateEditorForAction {σ : Type} (s : LedgerState σ) (editorId : String)
    (requiredRoles : List String) : Except LedgerErr RegisteredEditorM :=
  match dget editorId s.editors with
  | none => .error (.editor "editor is not registered")
  | some editor =>
    if editor.isActive = false then .error (.editor "editor is deactivated")
    else if requiredRoles ≠ [] ∧ editor.role ∉ requiredRoles then
      .error (.editor "editor does not have a required role")
    else .ok editor

def keyChallenge : String := "accountabilityme-key-verification-challenge-v1"

/-- `LedgerService._require_signing_key_matches`: sign the fixed challenge
with the offered private key and check it against the registered public
key; a failure inside `Signer.sign` is also reported as a key mismatch. -/
def requireSigningKeyMatches (env : LedgerEnv) (editor : RegisteredEditorM)
    (editorPrivateKey : String) : Except LedgerErr Unit :=
  match env.sign keyChallenge editorPrivateKey with
  | .error _ => .error (.editor "public key mismatch: could not verify private key")
  | .ok signature =>
    if env.verify keyChallenge signature editor.publicKey then .ok ()
    else .error (.editor "public key mismatch: private key does not match registered public key")

/-- `LedgerEvent.validate_chain_rules`. -/
def validateChainRules (e : LedgerEventM) : Except LedgerErr Unit :=
  if e.sequenceNumber = 0 then
    match e.previousEventHash with
    | some _ => .error (.valueErr "Genesis event must have previous_event_hash=None")
    | none => .ok ()
  else
    match e.previousEventHash with
    | none => .error (.valueErr "Non-genesis event must have previous_event_hash set")
    | some p =>
      if p.length ≠ 64 then .error (.valueErr "previous_event_hash must be 64 hex characters")
      else .ok ()

/-- `LedgerService._create_event_internal`: optional editor validation and
key-binding check, head reservation from the store, previous-hash
determination (with the non-genesis missing-hash `ChainError`), hashing,
signing, event construction, and `validate_chain_rules`; every failure
after reservation rolls the store back.  Returns the result together with
the store state. -/
def createEventInternal {σ : Type} (store : EventStoreIface σ) (env : LedgerEnv)
    (s : LedgerState σ) (eventType : EventTypeM) (entityId entityType : String)
    (payload : CanonValue) (editorId editorPrivateKey : String)
    (skipEditorValidation : Bool) :
    Except LedgerErr LedgerEventM × σ :=
  let validated : Except LedgerErr Unit :=
    if skipEditorValidation then .ok ()
    else
      match validateEditorForAction s editorId [] with
      | .error e => .error e
      | .ok editor => requireSigningKeyMatches env editor editorPrivateKey
  match validated with
  | .error e => (.error e, s.store)
  | .ok _ =>
    match store.reserveHead s.store with
    | .error e => (.error e, s.store)
    | .ok (head, st1) =>
      let sequenceNumber := head.nextSequence
      let finish : Option String → Except LedgerErr LedgerEventM × σ :=
        fun previousHash =>
          match hashEvent payload previousHash with
          | .error e => (.error (.canon e), store.rollback st1)
          | .ok eventHash =>
            match env.sign eventHash editorPrivateKey with
            | .error e => (.error e, store.rollback st1)
            | .ok signature =>
              let event : LedgerEventM :=
                { eventId := env.newEventId
                  sequenceNumber := sequenceNumber
                  eventType := eventType
                  entityId := entityId
                  entityType := entityType
                  payload := payload
                  previousEventHash := previousHash
                  eventHash := eventHash
                  createdBy := editorId
                  editorSignature := signature
                  createdAt := env.now }
              match validateChainRules event with
              | .error e => (.error e, store.rollback st1)
              | .ok _ => (.ok event, st1)
      if sequenceNumber = 0 then finish none
      else
        match head.lastEventHash with
        | none =>
          (.error (.chain "previous event hash is missing but this is not genesis"),
           store.rollback st1)
        | some ph => finish (some ph)

/-- `LedgerService._append_event`: canonicalize for storage, commit to the
store (which rolls itself back on failure), and only then update the
cached `_events`/`_last_hash`/`_next_sequence`. -/
def appendEvent {σ : Type} (store : EventStoreIface σ) (s : LedgerState σ)
    (event : LedgerEventM) : Option LedgerErr × LedgerState σ :=
  match canonicalize event.payload with
  | .error e => (some (.canon e), s)
  | .ok payloadCanon =>
    match store.commitAppend s.store event payloadCanon 1 with
    | .error e => (some e, { s with store := store.rollback s.store })
    | .ok st' =>
      (none,
       { s with
         store := st'
         events := s.events ++ [event]
         lastHash := some event.eventHash
         nextSequence := event.sequenceNumber + 1 })

/-- `LedgerService._validate_claim_declared`. -/
def validateClaimDeclared {σ : Type} (s : LedgerState σ) (claimId : String) :
    Option LedgerErr :=
  match dget claimId s.claims with
  | some _ => some (.validation "Claim already exists")
  | none => none

/-- `LedgerService._validate_claim_operationalized`. -/
def validateClaimOperationalized {σ : Type} (s : LedgerState σ) (claimId : String) :
    Option LedgerErr :=
  match dget claimId s.claims with
  | none => some (.validation "Claim does not exist. CLAIM_DECLARED must come first.")
  | some st =>
    if st ≠ .declared then some (.validation "Can only operationalize DECLARED claims")
    else none

/-- `LedgerService._validate_evidence_added`. -/
def validateEvidenceAdded {σ : Type} (s : LedgerState σ) (claimId : String) :
    Option LedgerErr :=
  match dget claimId s.claims with
  | none => some (.validation "Claim does not exist")
  | some st =>
    if st ≠ .operationalized ∧ st ≠ .observing then
      some (.validation "Claim must be operationalized before adding evidence")
    else none

/-- The evidence half of `_validate_claim_resolved`: the
`for ev_id in evidence_ids` attachment loop followed by the
`if not evidence_ids` emptiness check. -/
def validateResolvedEvidence (claimEvidence : List String) (ids : List String) :
    Option LedgerErr :=
  match ids.find? (fun evId => !(claimEvidence.contains evId)) with
  | some _ => some (.validation "Evidence is not attached to claim")
  | none =>
    if ids.isEmpty then
      some (.validation "Resolution requires at least one evidence reference")
    else none

/-- `LedgerService._validate_claim_resolved`: exists, not already resolved,
operationalized or observing, every referenced evidence attached, at least
one reference. -/
def validateClaimResolved {σ : Type} (s : LedgerState σ) (claimId : String)
    (supportingEvidenceIds : List String) : Option LedgerErr :=
  match dget claimId s.claims with
  | none => some (.validation "Claim does not exist")
  | some st =>
    if st = .resolved then some (.validation "Claims can only be resolved once")
    else if st ≠ .operationalized ∧ st ≠ .observing then
      some (.validation "Claim must be operationalized before resolution")
    else
      validateResolvedEvidence ((dget claimId s.claimEvidence).getD [])
        supportingEvidenceIds

/-- `LedgerService.declare_claim`. -/
def declareClaim {σ : Type} (store : EventStoreIface σ) (env : LedgerEnv)
    (s : LedgerState σ) (claimId : String) (payload : CanonValue)
    (editorId editorPrivateKey : String) :
    Except LedgerErr LedgerEventM × LedgerState σ :=
  match validateClaimDeclared s claimId with
  | some e => (.error e, s)
  | none =>
    let r := createEventInternal store env s .claimDeclared claimId "claim" payload
      editorId editorPrivateKey false
    match r.1 with
    | .error e => (.error e, { s with store := r.2 })
    | .ok event =>
      let a := appendEvent store { s with store := r.2 } event
      match a.1 with
      | some e => (.error e, a.2)
      | none =>
        (.ok event,
         { a.2 with
           claims := dset claimId .declared a.2.claims
           claimEvidence := dset claimId [] a.2.claimEvidence })

/-- `LedgerService.operationalize_claim`. -/
def operationalizeClaim {σ : Type} (store : EventStoreIface σ) (env : LedgerEnv)
    (s : LedgerState σ) (claimId : String) (payload : CanonValue)
    (editorId editorPrivateKey : String) :
    Except LedgerErr LedgerEventM × LedgerState σ :=
  match validateClaimOperationalized s claimId with
  | some e => (.error e, s)
  | none =>
    let r := createEventInternal store env s .claimOperationalized claimId "claim" payload
      editorId editorPrivateKey false
    match r.1 with
    | .error e => (.error e, { s with store := r.2 })
    | .ok event =>
      let a := appendEvent store { s with store := r.2 } event
      match a.1 with
      | some e => (.error e, a.2)
      | none =>
        (.ok event, { a.2 with claims := dset claimId .operationalized a.2.claims })

/-- `LedgerService.add_evidence`; a claim that passed validation always has
an evidence list (a missing entry would be a `KeyError` in the source,
unreachable through the service API). -/
def addEvidence {σ : Type} (store : EventStoreIface σ) (env : LedgerEnv)
    (s : LedgerState σ) (claimId evidenceId : String) (payload : CanonValue)
    (editorId editorPrivateKey : String) :
    Except LedgerErr LedgerEventM × LedgerState σ :=
  match validateEvidenceAdded s claimId with
  | some e => (.error e, s)
  | none =>
    let r := createEventInternal store env s .evidenceAdded evidenceId "evidence" payload
      editorId editorPrivateKey false
    match r.1 with
    | .error e => (.error e, { s with store := r.2 })
    | .ok event =>
      let a := appendEvent store { s with store := r.2 } event
      match a.1 with
      | some e => (.error e, a.2)
      | none =>
        let s2 :=
          { a.2 with
            claimEvidence :=
              dset claimId
                ((dget claimId a.2.claimEvidence).getD [] ++ [evidenceId])
                a.2.claimEvidence }
        let s3 :=
          if dget claimId s2.claims = some ClaimStatusM.operationalized then
            { s2 with claims := dset claimId .observing s2.claims }
          else s2
        (.ok event, s3)

/-- `LedgerService.resolve_claim`. -/
def resolveClaim {σ : Type} (store : EventStoreIface σ) (env : LedgerEnv)
    (s : LedgerState σ) (claimId : String) (supportingEvidenceIds : List String)
    (payload : CanonValue) (editorId editorPrivateKey : String) :
    Except LedgerErr LedgerEventM × LedgerState σ :=
  match validateClaimResolved s claimId supportingEvidenceIds with
  | some e => (.error e, s)
  | none =>
    let r := createEventInternal store env s .claimResolved claimId "claim" payload
      editorId editorPrivateKey false
    match r.1 with
    | .error e => (.error e, { s with store := r.2 })
    | .ok event =>
      let a := appendEvent store { s with store := r.2 } event
      match a.1 with
      | some e => (.error e, a.2)
      | none =>
        (.ok event, { a.2 with claims := dset claimId .resolved a.2.claims })

structure EditorRegisteredPayloadM where
  editorId : String
  username : String
  displayName : String
  role : String
  publicKey : String
  registeredBy : Option String
  registrationRationale : String
  /-- `payload.model_dump()` as handed to hashing and storage. -/
  dump : CanonValue

/-- `LedgerService.register_editor`: duplicate-id and duplicate-key
checks, genesis/registered-by rules with the admin key-binding check, event
creation, then — before the append, as in the source — insertion of the new
editor into the cached registry, and finally the append. -/
def registerEditor {σ : Type} (store : EventStoreIface σ) (env : LedgerEnv)
    (s : LedgerState σ) (payload : EditorRegisteredPayloadM)
    (registeringEditorPrivateKey : String) :
    Except LedgerErr LedgerEventM × LedgerState σ :=
  if (dget payload.editorId s.editors).isSome then
    (.error (.editor "Editor already exists"), s)
  else if (dget payload.publicKey s.publicKeyToEditor).isSome then
    (.error (.editor "Public key already registered"), s)
  else
    let signerResult : Except LedgerErr String :=
      if s.editors.isEmpty then
        match payload.registeredBy with
        | some _ => .error (.editor "Genesis editor must have registered_by=None")
        | none => .ok payload.editorId
      else
        match payload.registeredBy with
        | none => .error (.editor "Non-genesis editors must specify registered_by")
        | some rb =>
          match validateEditorForAction s rb ["admin"] with
          | .error e => .error e
          | .ok registeringEditor =>
            match requireSigningKeyMatches env registeringEditor
                registeringEditorPrivateKey with
            | .error e => .error e
            | .ok _ => .ok rb
    match signerResult with
    | .error e => (.error e, s)
    | .ok signingEditorId =>
      let r := createEventInternal store env s .editorRegistered payload.editorId
        "editor" payload.dump signingEditorId registeringEditorPrivateKey
        s.editors.isEmpty
      match r.1 with
      | .error e => (.error e, { s with store := r.2 })
      | .ok event =>
        let newEditor : RegisteredEditorM :=
          { editorId := payload.editorId
            username := payload.username
            displayName := payload.displayName
            role := payload.role
            publicKey := payload.publicKey
            isActive := true
            registeredAt := event.createdAt
            registeredBy := payload.registeredBy }
        let s1 :=
          { s with
            store := r.2
            editors := dset payload.editorId newEditor s.editors
            publicKeyToEditor :=
              dset payload.publicKey payload.editorId s.publicKeyToEditor }
        let a := appendEvent store s1 event
        match a.1 with
        | some e => (.error e, a.2)
        | none => (.ok event, a.2)

structure EditorDeactivatedPayloadM where
  editorId : String
  deactivatedBy : String
  reason : String
  /-- `payload.model_dump()` as handed to hashing and storage. -/
  dump : CanonValue

/-- `LedgerService.deactivate_editor`: like registration, the cached
editor record is replaced by its deactivated copy before the append. -/
def deactivateEditor {σ : Type} (store : EventStoreIface σ) (env : LedgerEnv)
    (s : LedgerState σ) (payload : EditorDeactivatedPayloadM)
    (adminPrivateKey : String) :
    Except LedgerErr LedgerEventM × LedgerState σ :=
  match dget payload.editorId s.editors with
  | none => (.error (.editor "Editor does not exist"), s)
  | some target =>
    if target.isActive = false then
      (.error (.editor "Editor is already deactivated"), s)
    else
      match validateEditorForAction s payload.deactivatedBy ["admin"] with
      | .error e => (.error e, s)
      | .ok admin =>
        match requireSigningKeyMatches env admin adminPrivateKey with
        | .error e => (.error e, s)
        | .ok _ =>
          if payload.editorId = payload.deactivatedBy ∧
              (s.editors.filter fun p =>
                p.2.isActive && decide (p.2.role = "admin")).length ≤ 1 then
            (.error (.editor "Cannot deactivate the only active admin"), s)
          else
            let r := createEventInternal store env s .editorDeactivated
              payload.editorId "editor" payload.dump payload.deactivatedBy
              adminPrivateKey false
            match r.1 with
            | .error e => (.error e, { s with store := r.2 })
            | .ok event =>
              let s1 :=
                { s with
                  store := r.2
                  editors := dset payload.editorId
                    { target with isActive := false } s.editors }
              let a := appendEvent store s1 event
              match a.1 with
              | some e => (.error e, a.2)
              | none => (.ok event, a.2)

/-! ### Claim-state-machine and projection-cache theorems -/

def tinyPayload : CanonValue := .mapv [("k", .strv "v")]

/-- A store whose commit always fails (any `EventStore` implementation may
reject a commit, e.g. with a concurrency conflict). -/
def failStoreU : EventStoreIface Unit :=
  { reserveHead := fun st => .ok (⟨-1, none⟩, st)
    commitAppend := fun _ _ _ _ => .error (.storeErr "commit failed")
    rollback := fun st => st }

def testEnvU : LedgerEnv :=
  { sign := fun m k => .ok (m ++ ":" ++ k)
    verify := fun _ _ _ => true
    newEventId := "33333333-3333-3333-3333-333333333333"
    now := "2026-01-01T00:00:00.000000Z" }

def emptyLedgerState : LedgerState Unit :=
  { store := (), events := [], claims := [], claimEvidence := [], editors := [],
    publicKeyToEditor := [], lastHash := none, nextSequence := 0 }

theorem validateResolvedEvidence_nil (ce : List String) :
    validateResolvedEvidence ce [] =
      some (.validation "Resolution requires at least one evidence reference") := rfl

/-- C4: a transition the state machine does not admit is rejected as a
`ValidationError` before any event creation, leaving the ledger state (and
hence the store) exactly as it was: operationalizing a non-existent claim,
adding evidence to a merely declared claim, resolving without evidence, and
resolving an already-resolved claim. -/
theorem illegal_transitions_rejected {σ : Type} (store : EventStoreIface σ)
    (env : LedgerEnv) (s : LedgerState σ) (claimId evidenceId : String)
    (p : CanonValue) (evidenceIds : List String) (editorId key : String) :
    (dget claimId s.claims = none →
      ∃ m, operationalizeClaim store env s claimId p editorId key =
        (.error (.validation m), s)) ∧
    (dget claimId s.claims = some .declared →
      ∃ m, addEvidence store env s claimId evidenceId p editorId key =
        (.error (.validation m), s)) ∧
    (∃ m, resolveClaim store env s claimId [] p editorId key =
      (.error (.validation m), s)) ∧
    (dget claimId s.claims = some .resolved →
      ∃ m, resolveClaim store env s claimId evidenceIds p editorId key =
        (.error (.validation m), s)) := by
  refine ⟨fun h => ?_, fun h => ?_, ?_, fun h => ?_⟩
  · exact ⟨"Claim does not exist. CLAIM_DECLARED must come first.",
      by simp [operationalizeClaim, validateClaimOperationalized, h]⟩
  · exact ⟨"Claim must be operationalized before adding evidence",
      by simp [addEvidence, validateEvidenceAdded, h]⟩
  · rcases hd : dget claimId s.claims with _ | st
    · exact ⟨"Claim does not exist",
        by simp [resolveClaim, validateClaimResolved, hd]⟩
    · cases st with
      | declared => exact ⟨"Claim must be operationalized before resolution",
          by simp [resolveClaim, validateClaimResolved, hd]⟩
      | operationalized => exact ⟨"Resolution requires at least one evidence reference",
          by simp [resolveClaim, validateClaimResolved, hd, validateResolvedEvidence_nil]⟩
      | observing => exact ⟨"Resolution requires at least one evidence reference",
          by simp [resolveClaim, validateClaimResolved, hd, validateResolvedEvidence_nil]⟩
      | resolved => exact ⟨"Claims can only be resolved once",
          by simp [resolveClaim, validateClaimResolved, hd]⟩
  · exact ⟨"Claims can only be resolved once",
      by simp [resolveClaim, validateClaimResolved, h]⟩

theorem illegal_transitions_rejected_witness :
    (dget "c1" emptyLedgerState.claims = none ∧
      ∃ m, operationalizeClaim failStoreU testEnvU emptyLedgerState "c1" tinyPayload
        "ed" "k" = (.error (.validation m), emptyLedgerState)) ∧
    (∃ m, resolveClaim failStoreU testEnvU emptyLedgerState "c1" [] tinyPayload
      "ed" "k" = (.error (.validation m), emptyLedgerState)) :=
  ⟨⟨by decide,
    (illegal_transitions_rejected failStoreU testEnvU emptyLedgerState "c1" "e1"
      tinyPayload [] "ed" "k").1 (by decide)⟩,
   (illegal_transitions_rejected failStoreU testEnvU emptyLedgerState "c1" "e1"
     tinyPayload [] "ed" "k").2.2.1⟩

theorem validateResolvedEvidence_spec (ce ids : List String) :
    (validateResolvedEvidence ce ids = none ↔
      ids ≠ [] ∧ ∀ evId ∈ ids, evId ∈ ce) ∧
    (∀ e, validateResolvedEvidence ce ids = some e → ∃ m, e = .validation m) := by
  cases hf : ids.find? (fun evId => !(ce.contains evId)) with
  | some x =>
    have hval : validateResolvedEvidence ce ids =
        some (.validation "Evidence is not attached to claim") := by
      unfold validateResolvedEvidence
      rw [hf]
    constructor
    · rw [hval]
      constructor
      · intro h0; simp at h0
      · rintro ⟨-, hall⟩
        exfalso
        have hx := List.find?_some hf
        have hmem := List.mem_of_find?_eq_some hf
        simp only [Bool.not_eq_true'] at hx
        exact absurd (hall x hmem) (by simpa using hx)
    · intro e he
      rw [hval] at he
      exact ⟨_, by simpa using he.symm⟩
  | none =>
    have hall : ∀ evId ∈ ids, evId ∈ ce := by
      intro evId hmem
      have hc := (List.find?_eq_none.mp hf) evId hmem
      simp only [Bool.not_eq_true', Bool.not_eq_false] at hc
      simpa using hc
    cases hie : ids.isEmpty with
    | true =>
      have h0 : ids = [] := by rwa [List.isEmpty_iff] at hie
      subst h0
      have hval : validateResolvedEvidence ce [] =
          some (.validation "Resolution requires at least one evidence reference") := rfl
      rw [hval]
      simp
    | false =>
      have hne : ids ≠ [] := by intro h0; subst h0; simp at hie
      have hval : validateResolvedEvidence ce ids = none := by
        unfold validateResolvedEvidence
        rw [hf]
        simp [hie]
      rw [hval]
      exact ⟨⟨fun _ => ⟨hne, hall⟩, fun _ => rfl⟩, fun e he => by simp at he⟩

theorem validateClaimResolved_spec {σ : Type} (s : LedgerState σ) (claimId : String)
    (ids : List String) :
    (validateClaimResolved s claimId ids = none ↔
      ∃ st, dget claimId s.claims = some st ∧
        (st = .operationalized ∨ st = .observing) ∧
        ids ≠ [] ∧
        ∀ evId ∈ ids, evId ∈ (dget claimId s.claimEvidence).getD []) ∧
    (∀ e, validateClaimResolved s claimId ids = some e → ∃ m, e = .validation m) := by
  obtain ⟨hev1, hev2⟩ :=
    validateResolvedEvidence_spec ((dget claimId s.claimEvidence).getD []) ids
  rcases hd : dget claimId s.claims with _ | st
  · have hval : validateClaimResolved s claimId ids =
        some (.validation "Claim does not exist") := by
      simp [validateClaimResolved, hd]
    rw [hval]
    exact ⟨by simp, fun e he => ⟨_, by simpa using he.symm⟩⟩
  · cases st with
    | declared =>
      have hval : validateClaimResolved s claimId ids =
          some (.validation "Claim must be operationalized before resolution") := by
        simp [validateClaimResolved, hd]
      rw [hval]
      refine ⟨?_, fun e he => ⟨_, by simpa using he.symm⟩⟩
      constructor
      · intro h0; simp at h0
      · rintro ⟨st', hst', hok, -, -⟩
        exfalso
        have : st' = ClaimStatusM.declared := by simpa using hst'.symm
        subst this
        rcases hok with h | h <;> simp at h
    | resolved =>
      have hval : validateClaimResolved s claimId ids =
          some (.validation "Claims can only be resolved once") := by
        simp [validateClaimResolved, hd]
      rw [hval]
      refine ⟨?_, fun e he => ⟨_, by simpa using he.symm⟩⟩
      constructor
      · intro h0; simp at h0
      · rintro ⟨st', hst', hok, -, -⟩
        exfalso
        have : st' = ClaimStatusM.resolved := by simpa using hst'.symm
        subst this
        rcases hok with h | h <;> simp at h
    | operationalized =>
      have hval : validateClaimResolved s claimId ids =
          validateResolvedEvidence ((dget claimId s.claimEvidence).getD []) ids := by
        simp [validateClaimResolved, hd]
      rw [hval]
      constructor
      · rw [hev1]
        constructor
        · intro ⟨h1, h2⟩; exact ⟨.operationalized, rfl, Or.inl rfl, h1, h2⟩
        · rintro ⟨st', hst', -, h1, h2⟩; exact ⟨h1, h2⟩
      · exact hev2
    | observing =>
      have hval : validateClaimResolved s claimId ids =
          validateResolvedEvidence ((dget claimId s.claimEvidence).getD []) ids := by
        simp [validateClaimResolved, hd]
      rw [hval]
      constructor
      · rw [hev1]
        constructor
        · intro ⟨h1, h2⟩; exact ⟨.observing, rfl, Or.inr rfl, h1, h2⟩
        · rintro ⟨st', hst', -, h1, h2⟩; exact ⟨h1, h2⟩
      · exact hev2

/-- C5: `resolve_claim` succeeds only when the claim is currently
operationalized or observing (hence not yet resolved), the payload carries
at least one supporting evidence id, and every referenced evidence id was
previously attached to this same claim; when those preconditions fail the
call raises a `ValidationError` and returns with the state untouched. -/
theorem resolve_claim_preconditions {σ : Type} (store : EventStoreIface σ)
    (env : LedgerEnv) (s : LedgerState σ) (claimId : String)
    (evidenceIds : List String) (p : CanonValue) (editorId key : String) :
    ((∃ ev, (resolveClaim store env s claimId evidenceIds p editorId key).1 = .ok ev) →
      ∃ st, dget claimId s.claims = some st ∧
        (st = .operationalized ∨ st = .observing) ∧
        evidenceIds ≠ [] ∧
        ∀ evId ∈ evidenceIds, evId ∈ (dget claimId s.claimEvidence).getD []) ∧
    ((¬ ∃ st, dget claimId s.claims = some st ∧
        (st = .operationalized ∨ st = .observing) ∧
        evidenceIds ≠ [] ∧
        ∀ evId ∈ evidenceIds, evId ∈ (dget claimId s.claimEvidence).getD []) →
      ∃ m, resolveClaim store env s claimId evidenceIds p editorId key =
        (.error (.validation m), s)) := by
  constructor
  · rintro ⟨ev, hok⟩
    cases hv : validateClaimResolved s claimId evidenceIds with
    | some e =>
      rw [resolveClaim, hv] at hok
      simp at hok
    | none =>
      exact (validateClaimResolved_spec s claimId evidenceIds).1.mp hv
  · intro hnot
    cases hv : validateClaimResolved s claimId evidenceIds with
    | some e =>
      obtain ⟨m, hm⟩ := (validateClaimResolved_spec s claimId evidenceIds).2 e hv
      subst hm
      exact ⟨m, by rw [resolveClaim, hv]⟩
    | none =>
      exact absurd ((validateClaimResolved_spec s claimId evidenceIds).1.mp hv) hnot

theorem resolve_claim_preconditions_witness :
    ∃ m, resolveClaim failStoreU testEnvU emptyLedgerState "c1" ["e1"] tinyPayload
      "ed" "k" = (.error (.validation m), emptyLedgerState) :=
  (resolve_claim_preconditions failStoreU testEnvU emptyLedgerState "c1" ["e1"]
    tinyPayload "ed" "k").2
    (fun ⟨st, hst, _⟩ => by simp [emptyLedgerState, dget] at hst)

/-! ### Projection caches across failed appends (C8) -/

/-- Equality of the cached projections: claim statuses, claim→evidence
attachments, the editors map and the public-key index. -/
def cachesEq {σ τ : Type} (a : LedgerState σ) (b : LedgerState τ) : Prop :=
  a.claims = b.claims ∧ a.claimEvidence = b.claimEvidence ∧
  a.editors = b.editors ∧ a.publicKeyToEditor = b.publicKeyToEditor

def isError {ε α : Type} : Except ε α → Bool
  | .error _ => true
  | .ok _ => false

theorem appendEvent_cachesEq {σ : Type} (store : EventStoreIface σ)
    (s : LedgerState σ) (ev : LedgerEventM) :
    cachesEq (appendEvent store s ev).2 s := by
  unfold appendEvent
  cases hc : canonicalize ev.payload with
  | error e => simp [cachesEq]
  | ok pc =>
    cases hcm : store.commitAppend s.store ev pc 1 with
    | error e => simp [hcm, cachesEq]
    | ok st' => simp [hcm, cachesEq]

theorem declareClaim_cachesEq {σ : Type} (store : EventStoreIface σ) (env : LedgerEnv)
    (s : LedgerState σ) (claimId : String) (p : CanonValue) (editorId key : String)
    (h : isError (declareClaim store env s claimId p editorId key).1 = true) :
    cachesEq (declareClaim store env s claimId p editorId key).2 s := by
  unfold declareClaim at h ⊢
  cases hv : validateClaimDeclared s claimId with
  | some e => simp [hv, cachesEq]
  | none =>
    simp only [hv] at h ⊢
    cases hr : (createEventInternal store env s .claimDeclared claimId "claim" p
        editorId key false).1 with
    | error e => simp [hr, cachesEq]
    | ok event =>
      simp only [hr] at h ⊢
      cases ha : (appendEvent store
          { s with store := (createEventInternal store env s .claimDeclared claimId
            "claim" p editorId key false).2 } event).1 with
      | some e =>
        simp only [ha] at h ⊢
        exact appendEvent_cachesEq store _ event
      | none => simp [ha, isError] at h

theorem operationalizeClaim_cachesEq {σ : Type} (store : EventStoreIface σ)
    (env : LedgerEnv) (s : LedgerState σ) (claimId : String) (p : CanonValue)
    (editorId key : String)
    (h : isError (operationalizeClaim store env s claimId p editorId key).1 = true) :
    cachesEq (operationalizeClaim store env s claimId p editorId key).2 s := by
  unfold operationalizeClaim at h ⊢
  cases hv : validateClaimOperationalized s claimId with
  | some e => simp [hv, cachesEq]
  | none =>
    simp only [hv] at h ⊢
    cases hr : (createEventInternal store env s .claimOperationalized claimId "claim" p
        editorId key false).1 with
    | error e => simp [hr, cachesEq]
    | ok event =>
      simp only [hr] at h ⊢
      cases ha : (appendEvent store
          { s with store := (createEventInternal store env s .claimOperationalized
            claimId "claim" p editorId key false).2 } event).1 with
      | some e =>
        simp only [ha] at h ⊢
        exact appendEvent_cachesEq store _ event
      | none => simp [ha, isError] at h

theorem addEvidence_cachesEq {σ : Type} (store : EventStoreIface σ) (env : LedgerEnv)
    (s : LedgerState σ) (claimId evidenceId : String) (p : CanonValue)
    (editorId key : String)
    (h : isError (addEvidence store env s claimId evidenceId p editorId key).1 = true) :
    cachesEq (addEvidence store env s claimId evidenceId p editorId key).2 s := by
  unfold addEvidence at h ⊢
  cases hv : validateEvidenceAdded s claimId with
  | some e => simp [hv, cachesEq]
  | none =>
    simp only [hv] at h ⊢
    cases hr : (createEventInternal store env s .evidenceAdded evidenceId "evidence" p
        editorId key false).1 with
    | error e => simp [hr, cachesEq]
    | ok event =>
      simp only [hr] at h ⊢
      cases ha : (appendEvent store
          { s with store := (createEventInternal store env s .evidenceAdded evidenceId
            "evidence" p editorId key false).2 } event).1 with
      | some e =>
        simp only [ha] at h ⊢
        exact appendEvent_cachesEq store _ event
      | none => simp [ha, isError] at h

theorem resolveClaim_cachesEq {σ : Type} (store : EventStoreIface σ) (env : LedgerEnv)
    (s : LedgerState σ) (claimId : String) (ids : List String) (p : CanonValue)
    (editorId key : String)
    (h : isError (resolveClaim store env s claimId ids p editorId key).1 = true) :
    cachesEq (resolveClaim store env s claimId ids p editorId key).2 s := by
  unfold resolveClaim at h ⊢
  cases hv : validateClaimResolved s claimId ids with
  | some e => simp [hv, cachesEq]
  | none =>
    simp only [hv] at h ⊢
    cases hr : (createEventInternal store env s .claimResolved claimId "claim" p
        editorId key false).1 with
    | error e => simp [hr, cachesEq]
    | ok event =>
      simp only [hr] at h ⊢
      cases ha : (appendEvent store
          { s with store := (createEventInternal store env s .claimResolved claimId
            "claim" p editorId key false).2 } event).1 with
      | some e =>
        simp only [ha] at h ⊢
        exact appendEvent_cachesEq store _ event
      | none => simp [ha, isError] at h

def c8RegPayload : EditorRegisteredPayloadM :=
  { editorId := "ed-1"
    username := "genesis"
    displayName := "Genesis"
    role := "admin"
    publicKey := "pk-1"
    registeredBy := none
    registrationRationale := "bootstrap the ledger"
    dump := .mapv [("k", .strv "v")] }

/-- C8 (amended): the four claim-lifecycle operations propagate any
failure and leave every cached projection exactly as it was; the editor
operations do not share this property — `register_editor` inserts the new
editor into the cached registry before the append, so a failed commit
leaves the phantom editor in the cache (shown on a store whose commit
fails). -/
theorem projections_on_failed_append {σ : Type} (store : EventStoreIface σ)
    (env : LedgerEnv) (s : LedgerState σ) (claimId evidenceId : String)
    (ids : List String) (p : CanonValue) (editorId key : String) :
    (isError (declareClaim store env s claimId p editorId key).1 = true →
      cachesEq (declareClaim store env s claimId p editorId key).2 s) ∧
    (isError (operationalizeClaim store env s claimId p editorId key).1 = true →
      cachesEq (operationalizeClaim store env s claimId p editorId key).2 s) ∧
    (isError (addEvidence store env s claimId evidenceId p editorId key).1 = true →
      cachesEq (addEvidence store env s claimId evidenceId p editorId key).2 s) ∧
    (isError (resolveClaim store env s claimId ids p editorId key).1 = true →
      cachesEq (resolveClaim store env s claimId ids p editorId key).2 s) ∧
    (isError (registerEditor failStoreU testEnvU emptyLedgerState c8RegPayload
        "priv").1 = true ∧
      dget "ed-1" (registerEditor failStoreU testEnvU emptyLedgerState c8RegPayload
        "priv").2.editors ≠ none) :=
  ⟨declareClaim_cachesEq store env s claimId p editorId key,
   operationalizeClaim_cachesEq store env s claimId p editorId key,
   addEvidence_cachesEq store env s claimId evidenceId p editorId key,
   resolveClaim_cachesEq store env s claimId ids p editorId key,
   by decide, by decide⟩

def c8DupState : LedgerState Unit :=
  { emptyLedgerState with claims := [("c1", .declared)] }

theorem projections_on_failed_append_witness :
    isError (declareClaim failStoreU testEnvU c8DupState "c1" tinyPayload
      "ed" "k").1 = true ∧
    cachesEq (declareClaim failStoreU testEnvU c8DupState "c1" tinyPayload
      "ed" "k").2 c8DupState :=
  ⟨by decide,
   (projections_on_failed_append failStoreU testEnvU c8DupState "c1" "e1" []
     tinyPayload "ed" "k").1 (by decide)⟩

/-- C8 counterexample: on a store whose commit fails, `register_editor`
propagates the error yet the cached editors map has already gained the new
editor — the projections are not left as they were. -/
theorem register_editor_mutates_cache_cex :
    isError (registerEditor failStoreU testEnvU emptyLedgerState c8RegPayload
      "priv").1 = true ∧
    dget "ed-1" (registerEditor failStoreU testEnvU emptyLedgerState c8RegPayload
      "priv").2.editors ≠ none ∧
    dget "ed-1" emptyLedgerState.editors = none := by
  exact ⟨by decide, by decide, by decide⟩

/-! ## Standalone bundle verifier (`tools/verify.py`)

The verifier ships its own canonicalizer, which differs from
`app/core/hasher.py` in three ways embedded below: a timezone-naive
instant is accepted (treated as UTC) instead of rejected, a non-hex or
empty previous hash is used as-is (an empty string counts as genesis),
and unknown kinds fall through to `str(value)` — for the `bytes`/`set`
constructors, whose Python `str()` form our embedding does not carry, an
uninterpreted placeholder string stands in; no theorem depends on those
branches.  A bundle event whose `created_by` is missing while a signature
is present makes the Python tool crash with a `TypeError` before reaching
a verdict; the embedding returns a failed signature check there, and the
theorems about verdicts assume `created_by` is present. -/

mutual

def serializeValueV : CanonValue → Except String JValue
  | .null => .ok .jnull
  | .boolv b => .ok (.jbool b)
  | .intv n => .ok (.jint n)
  | .floatv => .error "Floats not allowed in canonical form"
  | .decimalv s => .ok (.jstr s)
  | .strv s => .ok (.jstr s)
  | .uuidv s => .ok (.jstr (asciiLower s))
  | .instantv _ y mo d hh mi ss us => .ok (.jstr (fmtInstant y mo d hh mi ss us))
  | .datev y m d => .ok (.jstr (fmtDate y m d))
  | .mapv kvs => do
    let ps ← serializePairsV kvs
    pure (.jobj (sortKVs (ps.filter fun p => !(isJNull p.2))))
  | .listv xs => do pure (.jarr (← serializeListV xs))
  | .enumv s => .ok (.jstr s)
  | .bytesv => .ok (.jstr "<bytes repr>")
  | .setv => .ok (.jstr "<set repr>")

def serializeListV : List CanonValue → Except String (List JValue)
  | [] => .ok []
  | x :: xs => do pure ((← serializeValueV x) :: (← serializeListV xs))

def serializePairsV : List (String × CanonValue) → Except String (List (String × JValue))
  | [] => .ok []
  | (k, v) :: kvs => do pure ((k, ← serializeValueV v) :: (← serializePairsV kvs))

end

/-- `tools/verify.py canonicalize`. -/
def canonicalizeV (data : CanonValue) : Except String String :=
  match data with
  | .mapv kvs =>
    match serializePairsV kvs with
    | .error e => .error e
    | .ok ps =>
      let cd := sortKVs (ps.filter fun p => !(isJNull p.2))
      let withV :=
        if cd.any (fun p => p.1 == "__canon_v") then cd
        else sortKVs (("__canon_v", JValue.jint 1) :: cd)
      .ok (renderJ (.jobj withV))
  | _ => .error "Top-level canonicalization requires an object/dict"

/-- `tools/verify.py compute_event_hash`: an absent or empty previous hash
means genesis; otherwise the lowercased previous hash is prepended with a
colon (no 64-hex format validation here, unlike `Hasher.hash_event`). -/
def computeEventHashV (payload : CanonValue) (previousHash : Option String) :
    Except String String :=
  match canonicalizeV payload with
  | .error e => .error e
  | .ok canonical =>
    match previousHash with
    | none => .ok (sha256String canonical)
    | some h =>
      if h = "" then .ok (sha256String canonical)
      else .ok (sha256String (asciiLower h ++ ":" ++ canonical))

structure BundleEvent where
  eventId : String
  sequenceNumber : Int
  eventHash : String
  previousEventHash : Option String
  payload : CanonValue
  editorSignature : Option String
  createdBy : Option String

structure BundleEditor where
  publicKey : Option String

structure Bundle where
  hasMeta : Bool
  hasVerification : Bool
  hasClaim : Bool
  events : Option (List BundleEvent)
  editors : Option (List (String × BundleEditor))

inductive VerdictM where
  | verified
  | tampered
  | incomplete
  | invalidFormat
deriving DecidableEq, Repr

/-- `BundleVerifier._check_structure`: the five required top-level keys
(`events` and `editors` present via their option), `events` a list, and at
least one event. -/
def checkStructure (b : Bundle) : Bool :=
  b.hasMeta && b.hasVerification && b.hasClaim && b.events.isSome &&
    b.editors.isSome && !(b.events.getD []).isEmpty

/-- `BundleVerifier._verify_hashes`: recompute each event hash and compare
case-insensitively; a hash-computation failure also fails the check. -/
def verifyHashes (events : List BundleEvent) : Bool :=
  events.all fun ev =>
    match computeEventHashV ev.payload ev.previousEventHash with
    | .error _ => false
    | .ok computed => asciiLower computed == asciiLower ev.eventHash

/-- `BundleVerifier._verify_chain_linkage` over adjacent pairs (a missing
`previous_event_hash` on a non-first event crashes the tool in Python and
is embedded as a comparison against the empty string). -/
def linkagePairs : List BundleEvent → Bool
  | a :: b :: rest =>
    (asciiLower a.eventHash == asciiLower (b.previousEventHash.getD ""))
      && linkagePairs (b :: rest)
  | _ => true

def verifyChainLinkage (events : List BundleEvent) : Bool := linkagePairs events

/-- `BundleVerifier._verify_signatures` with the Ed25519 primitive
abstracted as `sv`. -/
def verifySignatures (sv : String → String → String → Bool)
    (events : List BundleEvent) (editors : List (String × BundleEditor)) : Bool :=
  events.all fun ev =>
    match ev.editorSignature with
    | none => false
    | some sg =>
      if sg = "" then false
      else
        match ev.createdBy with
        | none => false
        | some eid =>
          match dget eid editors with
          | none => false
          | some editor =>
            match editor.publicKey with
            | none => false
            | some pk => if pk = "" then false else sv ev.eventHash sg pk

/-- `BundleVerifier._verify_editors`: every editor id used by an event
(ignoring falsy ids) resolves in the editors section. -/
def verifyEditors (events : List BundleEvent)
    (editors : List (String × BundleEditor)) : Bool :=
  events.all fun ev =>
    match ev.createdBy with
    | none => true
    | some eid => if eid = "" then true else (dget eid editors).isSome

/-- `BundleVerifier.verify`: structure → hashes → linkage → signatures →
editors, mapping failures to INVALID_FORMAT / TAMPERED / TAMPERED /
TAMPERED / INCOMPLETE. -/
def bundleVerify (sv : String → String → String → Bool) (b : Bundle) : VerdictM :=
  if checkStructure b = false then .invalidFormat
  else if verifyHashes (b.events.getD []) = false then .tampered
  else if verifyChainLinkage (b.events.getD []) = false then .tampered
  else if verifySignatures sv (b.events.getD []) (b.editors.getD []) = false then
    .tampered
  else if verifyEditors (b.events.getD []) (b.editors.getD []) = false then
    .incomplete
  else .verified

/-- The exit-code map in `main`. -/
def exitCode : VerdictM → Nat
  | .verified => 0
  | .tampered => 1
  | .incomplete => 2
  | .invalidFormat => 3

theorem signatures_imply_editors (sv : String → String → String → Bool)
    (events : List BundleEvent) (editors : List (String × BundleEditor))
    (hs : verifySignatures sv events editors = true) :
    verifyEditors events editors = true := by
  rw [verifySignatures, List.all_eq_true] at hs
  rw [verifyEditors, List.all_eq_true]
  intro ev hmem
  have h := hs ev hmem
  cases hsig : ev.editorSignature with
  | none => rw [hsig] at h; simp at h
  | some sg =>
    rw [hsig] at h
    replace h : (if sg = "" then false
        else
          match ev.createdBy with
          | none => false
          | some eid =>
            match dget eid editors with
            | none => false
            | some editor =>
              match editor.publicKey with
              | none => false
              | some pk => if pk = "" then false else sv ev.eventHash sg pk) = true := h
    by_cases hsgz : sg = ""
    · rw [if_pos hsgz] at h; simp at h
    · rw [if_neg hsgz] at h
      cases hcb : ev.createdBy with
      | none => simp [hcb] at h
      | some eid =>
        rw [hcb] at h
        replace h : (match dget eid editors with
            | none => false
            | some editor =>
              match editor.publicKey with
              | none => false
              | some pk => if pk = "" then false else sv ev.eventHash sg pk) = true := h
        cases hdg : dget eid editors with
        | none => rw [hdg] at h; simp at h
        | some editor =>
          show (if eid = "" then true else (dget eid editors).isSome) = true
          by_cases hz : eid = ""
          · rw [if_pos hz]
          · rw [if_neg hz, hdg]
            rfl

def sigAlwaysTrue : String → String → String → Bool := fun _ _ _ => true

def c9Event : BundleEvent :=
  { eventId := "44444444-4444-4444-4444-444444444444"
    sequenceNumber := 0
    eventHash := "daaeb332256d52061377c46b3fa7b1347f7dd2df06ed94ddad428129f0f05362"
    previousEventHash := none
    payload := .mapv [("k", .strv "v")]
    editorSignature := some "c2lnbmF0dXJl"
    createdBy := some "ed-1" }

def c9Bundle : Bundle :=
  { hasMeta := true
    hasVerification := true
    hasClaim := true
    events := some [c9Event]
    editors := some [("ed-1", ⟨some "pk-1"⟩)] }

/-- The same bundle with one character of the event payload changed. -/
def c9Mutated : Bundle :=
  { c9Bundle with events := some [{ c9Event with payload := .mapv [("k", .strv "w")] }] }

/-- C9 (amended): deleting the editors section makes `_check_structure`
fail, so the verifier returns INVALID_FORMAT and the process exits with
code 3 — not INCOMPLETE/2; indeed INCOMPLETE is unreachable for any bundle
whose events all carry `created_by`, because the signature check already
requires every editor to resolve.  An unmodified valid bundle yields
VERIFIED with exit code 0, and mutating one character of an event's
payload yields TAMPERED with exit code 1. -/
theorem bundle_verifier_verdicts (sv : String → String → String → Bool) (b : Bundle) :
    (b.editors = none →
      bundleVerify sv b = .invalidFormat ∧ exitCode (bundleVerify sv b) = 3) ∧
    (exitCode .verified = 0 ∧ exitCode .tampered = 1 ∧ exitCode .incomplete = 2 ∧
      exitCode .invalidFormat = 3) ∧
    ((∀ ev ∈ b.events.getD [], ev.createdBy.isSome) →
      bundleVerify sv b ≠ .incomplete) ∧
    (bundleVerify sigAlwaysTrue c9Bundle = .verified ∧
      exitCode (bundleVerify sigAlwaysTrue c9Bundle) = 0) ∧
    (bundleVerify sigAlwaysTrue c9Mutated = .tampered ∧
      exitCode (bundleVerify sigAlwaysTrue c9Mutated) = 1) := by
  refine ⟨fun hed => ?_, ⟨rfl, rfl, rfl, rfl⟩, fun _ => ?_, ⟨by decide, by decide⟩,
    ⟨by decide, by decide⟩⟩
  · have hcs : checkStructure b = false := by
      unfold checkStructure
      rw [hed]
      simp
    rw [bundleVerify, if_pos hcs]
    exact ⟨rfl, rfl⟩
  · unfold bundleVerify
    by_cases h1 : checkStructure b = false
    · simp [h1]
    · rw [if_neg h1]
      by_cases h2 : verifyHashes (b.events.getD []) = false
      · simp [h2]
      · rw [if_neg h2]
        by_cases h3 : verifyChainLinkage (b.events.getD []) = false
        · simp [h3]
        · rw [if_neg h3]
          by_cases h4 : verifySignatures sv (b.events.getD []) (b.editors.getD []) = false
          · simp [h4]
          · rw [if_neg h4]
            have h4t : verifySignatures sv (b.events.getD []) (b.editors.getD []) = true := by
              cases hq : verifySignatures sv (b.events.getD []) (b.editors.getD []) with
              | false => exact absurd hq h4
              | true => rfl
            have h5 := signatures_imply_editors sv _ _ h4t
            rw [if_neg (by rw [h5]; simp)]
            simp

theorem bundle_verifier_verdicts_witness :
    ((c9Bundle.editors = none → False) ∧
      bundleVerify sigAlwaysTrue { c9Bundle with editors := none } = .invalidFormat ∧
      exitCode (bundleVerify sigAlwaysTrue { c9Bundle with editors := none }) = 3) ∧
    bundleVerify sigAlwaysTrue c9Bundle ≠ .incomplete :=
  ⟨⟨fun h => by simp [c9Bundle] at h,
    (bundle_verifier_verdicts sigAlwaysTrue { c9Bundle with editors := none }).1 rfl⟩,
   (bundle_verifier_verdicts sigAlwaysTrue c9Bundle).2.2.1 (by decide)⟩

/-- C9 counterexample: the claim promises INCOMPLETE with exit code 2 when
the editors section is deleted; the verifier actually classifies that
bundle as INVALID_FORMAT with exit code 3. -/
theorem bundle_editors_deleted_cex :
    bundleVerify sigAlwaysTrue c9Bundle = .verified ∧
    bundleVerify sigAlwaysTrue { c9Bundle with editors := none } = .invalidFormat ∧
    exitCode (bundleVerify sigAlwaysTrue { c9Bundle with editors := none }) = 3 ∧
    exitCode (bundleVerify sigAlwaysTrue { c9Bundle with editors := none }) ≠ 2 := by
  exact ⟨by decide, by decide, by decide, by decide⟩

/-! ## Signer (`app/core/signer.py`)

`Signer.verify` wraps PyNaCl: base64-decode the public key, construct a
`VerifyKey` (which demands exactly 32 bytes), base64-decode the signature,
and call the Ed25519 verification primitive on the UTF-8 bytes of the
message with the 64-byte signature — any failure anywhere returns `False`.
`base64.b64decode` (validate=False) is modelled as: non-ASCII input fails,
characters outside the alphabet are discarded, the remaining length must be
a multiple of 4 with `=` padding closing the final quad.  The Ed25519
primitive itself is an abstract parameter. -/

def b64Index (c : Char) : Option Nat :=
  if 'A' ≤ c ∧ c ≤ 'Z' then some (c.toNat - 65)
  else if 'a' ≤ c ∧ c ≤ 'z' then some (c.toNat - 71)
  else if '0' ≤ c ∧ c ≤ '9' then some (c.toNat + 4)
  else if c = '+' then some 62
  else if c = '/' then some 63
  else none

def b64Quads : List Char → Option (List Nat)
  | [] => some []
  | [a, b, '=', '='] => do
    let x ← b64Index a
    let y ← b64Index b
    pure [(x <<< 2 ||| y >>> 4) % 256]
  | [a, b, c, '='] => do
    let x ← b64Index a
    let y ← b64Index b
    let z ← b64Index c
    pure [(x <<< 2 ||| y >>> 4) % 256, ((y <<< 4 ||| z >>> 2)) % 256]
  | a :: b :: c :: d :: rest => do
    let x ← b64Index a
    let y ← b64Index b
    let z ← b64Index c
    let w ← b64Index d
    let tail ← b64Quads rest
    pure ((x <<< 2 ||| y >>> 4) % 256 :: (y <<< 4 ||| z >>> 2) % 256 ::
      (z <<< 6 ||| w) % 256 :: tail)
  | _ => none

def base64decode (s : String) : Option (List Nat) :=
  if s.data.all (fun c => c.toNat < 128) then
    b64Quads (s.data.filter (fun c => (b64Index c).isSome || c = '='))
  else none

/-- `Signer.verify`: total; `False` on every failure path, `True` exactly
when both base64 decodings succeed with the right lengths and the Ed25519
primitive accepts. -/
def signerVerify (ed25519Verify : List Nat → List Nat → List Nat → Bool)
    (message signatureB64 publicKeyB64 : String) : Bool :=
  match base64decode publicKeyB64 with
  | none => false
  | some publicKeyBytes =>
    if publicKeyBytes.length ≠ 32 then false
    else
      match base64decode signatureB64 with
      | none => false
      | some signatureBytes =>
        if signatureBytes.length ≠ 64 then false
        else ed25519Verify (utf8Bytes message) signatureBytes publicKeyBytes

/-- `Signer.verify_event` forwards to `Signer.verify`. -/
def signerVerifyEvent (ed25519Verify : List Nat → List Nat → List Nat → Bool)
    (eventHash signatureB64 publicKeyB64 : String) : Bool :=
  signerVerify ed25519Verify eventHash signatureB64 publicKeyB64

/-- C10: `Signer.verify` (and `Signer.verify_event`) is a total Boolean
function: it returns `False` on every failure path — malformed base64,
wrong-length key or signature bytes — and `True` exactly when the key
decodes to 32 bytes, the signature decodes to 64 bytes, and the Ed25519
primitive accepts the signature over the UTF-8 bytes of the message. -/
theorem signer_verify_total (prim : List Nat → List Nat → List Nat → Bool)
    (m sig pk : String) :
    (signerVerifyEvent prim m sig pk = signerVerify prim m sig pk) ∧
    (signerVerify prim m sig pk = true ↔
      ∃ pkb sgb, base64decode pk = some pkb ∧ pkb.length = 32 ∧
        base64decode sig = some sgb ∧ sgb.length = 64 ∧
        prim (utf8Bytes m) sgb pkb = true) := by
  refine ⟨rfl, ?_⟩
  unfold signerVerify
  cases hpk : base64decode pk with
  | none => simp
  | some pkb =>
    show (if pkb.length ≠ 32 then false
      else
        match base64decode sig with
        | none => false
        | some signatureBytes =>
          if signatureBytes.length ≠ 64 then false
          else prim (utf8Bytes m) signatureBytes pkb) = true ↔ _
    by_cases hl : pkb.length ≠ 32
    · rw [if_pos hl]
      simp only [Bool.false_eq_true, false_iff]
      rintro ⟨pkb', sgb, hpk', hl', -, -, -⟩
      cases hpk'
      exact hl hl'
    · rw [if_neg hl]
      push_neg at hl
      cases hsg : base64decode sig with
      | none => simp
      | some sgb =>
        show (if sgb.length ≠ 64 then false
          else prim (utf8Bytes m) sgb pkb) = true ↔ _
        by_cases hsl : sgb.length ≠ 64
        · rw [if_pos hsl]
          simp only [Bool.false_eq_true, false_iff]
          rintro ⟨pkb', sgb', -, -, hsg', hsl', -⟩
          cases hsg'
          exact hsl hsl'
        · rw [if_neg hsl]
          push_neg at hsl
          constructor
          · intro hv
            exact ⟨pkb, sgb, rfl, hl, rfl, hsl, hv⟩
          · rintro ⟨pkb', sgb', hpk', -, hsg', -, hv⟩
            cases hpk'
            cases hsg'
            exact hv

def c10Key : String :=
  "AAAAAAAAAAAAAAAAAAAAAAAAAAAAAAAAAAAAAAAAAAA="

def c10Sig : String :=
  String.mk (List.replicate 86 'A') ++ "=="

theorem signer_verify_total_witness :
    signerVerify (fun _ _ _ => true) "msg" c10Sig c10Key = true ∧
    signerVerify (fun _ _ _ => true) "msg" "%%%" c10Key = false :=
  ⟨(signer_verify_total (fun _ _ _ => true) "msg" c10Sig c10Key).2.mpr
    ⟨(base64decode c10Key).getD [], (base64decode c10Sig).getD [],
      by decide, by decide, by decide, by decide, rfl⟩,
   by decide⟩

end Spec2Proof
